import Mathlib

/-!
Shallow embedding of the connection orchestrator (`Server<P>`) of
`dragon-renet`, `src/server/server.rs`, together with proofs of the spec
claims about it.

Rust `HashMap`s are embedded as association lists with unique keys; the
helper operations below mirror `HashMap::insert` (replace an existing key,
otherwise add), `HashMap::remove`, `get_mut`-style in-place value update,
and the `values_mut().find(..)` linear scans of the source.

External collaborators that live outside the orchestrator source file
(`Connection`, `HandleConnection`, channels, the pluggable authentication
protocol, the UDP socket) are modelled from the spec at their consumed
interface, as documented on each definition.
-/

namespace DragonRenet

/-- Association-list lookup, mirroring `HashMap::get`. -/
def lookupA {α : Type} (l : List (Nat × α)) (k : Nat) : Option α :=
  match l with
  | [] => none
  | kv :: rest => if kv.1 = k then some kv.2 else lookupA rest k

/-- Association-list insert, mirroring `HashMap::insert`: replaces the value
at an existing key, otherwise adds the binding. -/
def insertA {α : Type} (l : List (Nat × α)) (k : Nat) (v : α) : List (Nat × α) :=
  match l with
  | [] => [(k, v)]
  | kv :: rest => if kv.1 = k then (k, v) :: rest else kv :: insertA rest k v

/-- Association-list removal, mirroring `HashMap::remove`. -/
def removeA {α : Type} (l : List (Nat × α)) (k : Nat) : List (Nat × α) :=
  match l with
  | [] => []
  | kv :: rest => if kv.1 = k then removeA rest k else kv :: removeA rest k

/-- In-place update of the value stored at a key, mirroring mutation through
`HashMap::get_mut`. -/
def updateA {α : Type} (l : List (Nat × α)) (k : Nat) (f : α → α) : List (Nat × α) :=
  match l with
  | [] => []
  | kv :: rest => (if kv.1 = k then (kv.1, f kv.2) else kv) :: updateA rest k f

/-- In-place update of every stored value, mirroring mutation through
`values_mut()`. -/
def mapVals {α : Type} (f : α → α) (l : List (Nat × α)) : List (Nat × α) :=
  match l with
  | [] => []
  | kv :: rest => (kv.1, f kv.2) :: mapVals f rest

/-- In-place update of the first element satisfying a predicate, mirroring
mutation through the reference returned by `values_mut().find(..)`. -/
def updFirst {α : Type} (p : α → Bool) (f : α → α) : List α → List α
  | [] => []
  | x :: rest => if p x then f x :: rest else x :: updFirst p f rest

/-- The key list of an association list. -/
def keysOf {α : Type} (l : List (Nat × α)) : List Nat :=
  l.map Prod.fst

end DragonRenet

namespace DragonRenet

/-- Rust `ClientId` (`src/connection.rs`, consumed interface only): an
externally-assigned peer identifier, chosen by the authentication protocol. -/
abbrev ClientId := Nat

/-- A network address (`std::net::SocketAddr`), abstracted to an opaque
identifier with decidable equality. -/
abbrev SockAddr := Nat

/-- A raw datagram payload (`Box<[u8]>`), as a list of bytes. -/
abbrev Payload := List Nat

/-- The `Event` type from `src/server/server.rs`: a lifecycle notification queued for
the application. -/
inductive Event where
  | clientConnected (id : ClientId)
  | clientDisconnected (id : ClientId)
deriving DecidableEq, Repr

/-- The `ChannelConfig` blueprint (external collaborator): an immutable configuration
blueprint, abstracted to an opaque tag. -/
structure ChannelConfig where
  tag : Nat
deriving DecidableEq, Repr

/-- Modelled from the spec: a `Channel` is a per-session message queue with a
clock; the concrete delivery semantics are out of scope, so the model keeps
the clock, the buffered inbound messages and the queued outbound messages. -/
structure Channel where
  time : Nat
  inbound : List Payload
  outbound : List Payload
deriving DecidableEq, Repr

/-- Modelled from the spec: the channel factory
`build(timestamp) -> Channel` (`ChannelConfig::new_channel` in the source),
building a fresh channel whose clock starts at the given timestamp. -/
def ChannelConfig.new_channel (_cfg : ChannelConfig) (t : Nat) : Channel :=
  { time := t, inbound := [], outbound := [] }

/-- Modelled from the spec: a `Connection` (an authenticated session) is the
peer's address, its security context, its channel set, plus the
endpoint-level buffers the orchestrator interacts with: the log of inbound
datagrams handed to the session and the queue of outbound packets. -/
structure Connection where
  addr : SockAddr
  security : Nat
  received : List Payload
  packets : List Payload
  channels : List (Nat × Channel)
deriving DecidableEq, Repr

/-- Modelled from the spec: `Connection::new(addr, endpoint, security_service)`
starts with no channels and empty buffers. -/
def Connection.new (addr : SockAddr) (security : Nat) : Connection :=
  { addr := addr, security := security, received := [], packets := [], channels := [] }

/-- Modelled from the spec: `Connection::process_payload` ingests one inbound
datagram into the session (endpoint decoding is out of scope, so the model
records the datagram). -/
def Connection.process_payload (c : Connection) (p : Payload) : Connection :=
  { c with received := c.received ++ [p] }

/-- Modelled from the spec: `Connection::send_message(channel_id, message)`
enqueues an outbound message on the given channel. -/
def Connection.send_message (c : Connection) (channel_id : Nat) (message : Payload) :
    Connection :=
  let chans := updateA c.channels channel_id fun ch =>
    { ch with outbound := ch.outbound ++ [message] }
  { c with channels := chans }

/-- Modelled from the spec:
`Connection::receive_all_messages_from_channel(channel_id)` drains and
returns every buffered inbound message of one channel (an empty batch when
nothing is buffered). -/
def Connection.receive_all_messages_from_channel (c : Connection) (channel_id : Nat) :
    List Payload × Connection :=
  match lookupA c.channels channel_id with
  | some ch =>
      (ch.inbound,
       { c with channels := updateA c.channels channel_id (fun x => { x with inbound := [] }) })
  | none => ([], c)

/-- Modelled from the spec: `Connection::update_channels_current_time` advances
every channel's clock to the given timestamp. -/
def Connection.update_channels_current_time (c : Connection) (t : Nat) : Connection :=
  { c with channels := mapVals (fun ch => { ch with time := t }) c.channels }

/-- Modelled from the spec: `Connection::add_channel(channel_id, channel)`
inserts a channel into the session's channel set. -/
def Connection.add_channel (c : Connection) (channel_id : Nat) (ch : Channel) : Connection :=
  { c with channels := insertA c.channels channel_id ch }

/-- Modelled from the spec: `Connection::get_packet` produces the session's
next outbound packet if one is ready. -/
def Connection.get_packet (c : Connection) : Option Payload × Connection :=
  match c.packets with
  | [] => (none, c)
  | p :: rest => (some p, { c with packets := rest })

/-- The `HandleConnection` record from `src/server/handle_connection.rs` (consumed
interface): one in-progress handshake — the protocol-assigned client id, the
peer's address and the protocol state, generic over the protocol state type. -/
structure HandleConnection (σ : Type) where
  client_id : ClientId
  addr : SockAddr
  protocol : σ
deriving DecidableEq, Repr

/-- The pluggable authentication protocol
(`AuthenticationProtocol + ServerAuthenticationProtocol`), modelled from the
spec at its consumed interface: build from a first payload (`none` on a
malformed payload), report the assigned id, report authentication status,
produce the next outbound handshake payload (`none` for an error, `some none`
for "nothing to send"), process one inbound payload (`none` on an error,
which per the spec leaves the handshake entry unchanged), and build the
security context for the resulting session. -/
structure ProtocolOps (σ : Type) where
  fromPayload : Payload → Option σ
  protId : σ → ClientId
  isAuthenticated : σ → Bool
  createPayload : σ → Option (Option Payload)
  processPayload : σ → Payload → Option σ
  buildSecurity : σ → Nat

/-- Modelled from the spec: `HandleConnection::process_payload` feeds one
datagram to the handshake's protocol; a protocol error is logged and leaves
the entry unchanged. -/
def HandleConnection.process_payload {σ : Type} (ops : ProtocolOps σ)
    (h : HandleConnection σ) (p : Payload) : HandleConnection σ :=
  match ops.processPayload h.protocol p with
  | some st => { h with protocol := st }
  | none => h

/-- The `ServerConfig` record from `src/server/mod.rs` (consumed interface): the
capacity bound and the inbound datagram size bound. -/
structure ServerConfig where
  max_clients : Nat
  max_payload_size : Nat
deriving DecidableEq, Repr

/-- The `EndpointConfig` blueprint (external collaborator), abstracted to an opaque tag. -/
structure EndpointConfig where
  tag : Nat
deriving DecidableEq, Repr

/-- The `Server<P>` struct from `src/server/server.rs`: the connection orchestrator.
The UDP socket is externalised: inbound traffic is passed to `update` as a
trace of socket receive results, and every datagram written to the socket is
recorded in `sent`. -/
structure Server (σ : Type) where
  config : ServerConfig
  clients : List (ClientId × Connection)
  connecting : List (ClientId × HandleConnection σ)
  channels_config : List (Nat × ChannelConfig)
  endpoint_config : EndpointConfig
  current_time : Nat
  events : List Event
  sent : List (SockAddr × Payload)

/-- Constructor `Server::new`: a fresh orchestrator with empty maps and an empty event
queue; `current_time` is assigned `Instant::now()` at construction, passed
here as `now`. -/
def Server.new {σ : Type} (config : ServerConfig) (endpoint_config : EndpointConfig)
    (channels_config : List (Nat × ChannelConfig)) (now : Nat) : Server σ :=
  { config := config, clients := [], connecting := [],
    channels_config := channels_config, endpoint_config := endpoint_config,
    current_time := now, events := [], sent := [] }

/-- Accessor `Server::has_clients`. -/
def Server.has_clients {σ : Type} (s : Server σ) : Bool :=
  !s.clients.isEmpty

/-- Accessor `Server::get_event`: `self.events.pop()` — removes and returns the last
element of the event vector. -/
def Server.get_event {σ : Type} (s : Server σ) : Option Event × Server σ :=
  (s.events.getLast?, { s with events := s.events.dropLast })

/-- Helper `Server::find_client_by_addr`: linear scan of the session map's values
for the first one at the given address (returned by mutable reference in the
source; the model returns its key). -/
def Server.find_client_by_addr {σ : Type} (s : Server σ) (addr : SockAddr) :
    Option ClientId :=
  (s.clients.find? fun kc => kc.2.addr == addr).map Prod.fst

/-- Helper `Server::find_connection_by_addr`: linear scan of the pending-handshake
map's values for the first one at the given address. -/
def Server.find_connection_by_addr {σ : Type} (s : Server σ) (addr : SockAddr) :
    Option ClientId :=
  (s.connecting.find? fun kh => kh.2.addr == addr).map Prod.fst

/-- Accessor `Server::get_client_network_info`: refreshes and returns bandwidth
statistics for one session, or signals absence. Bandwidth accounting lives in
the endpoint (out of scope), so the refresh leaves the modelled state
unchanged and the statistics are abstracted to `Unit`. -/
def Server.get_client_network_info {σ : Type} (s : Server σ) (client_id : ClientId) :
    Option Unit × Server σ :=
  (if (lookupA s.clients client_id).isSome then some () else none, s)

/-- Method `Server::send_message_to_all_clients`. -/
def Server.send_message_to_all_clients {σ : Type} (s : Server σ) (channel_id : Nat)
    (message : Payload) : Server σ :=
  { s with clients := mapVals (fun c => c.send_message channel_id message) s.clients }

/-- Method `Server::send_message_to_client`: enqueues on one session's channel;
silently does nothing for an unknown client id. -/
def Server.send_message_to_client {σ : Type} (s : Server σ) (client_id : ClientId)
    (channel_id : Nat) (message : Payload) : Server σ :=
  match lookupA s.clients client_id with
  | some _ =>
      { s with clients := updateA s.clients client_id (fun c => c.send_message channel_id message) }
  | none => s

/-- Method `Server::get_messages_from_client`: drains one channel of one session,
or returns `none` for an unknown client id. -/
def Server.get_messages_from_client {σ : Type} (s : Server σ) (client_id : ClientId)
    (channel_id : Nat) : Option (List Payload) × Server σ :=
  match lookupA s.clients client_id with
  | some c =>
      let cl := updateA s.clients client_id fun c =>
        (c.receive_all_messages_from_channel channel_id).2
      (some (c.receive_all_messages_from_channel channel_id).1, { s with clients := cl })
  | none => (none, s)

/-- Method `Server::get_messages_from_channel`: drains one channel of every session,
reporting the client id and batch for each session with a non-empty batch. -/
def Server.get_messages_from_channel {σ : Type} (s : Server σ) (channel_id : Nat) :
    List (ClientId × List Payload) × Server σ :=
  let batches := s.clients.map fun kc =>
    (kc.1, (kc.2.receive_all_messages_from_channel channel_id).1)
  let cl := mapVals (fun c => (c.receive_all_messages_from_channel channel_id).2) s.clients
  (batches.filter fun r => !r.2.isEmpty, { s with clients := cl })

/-- Accessor `Server::get_clients_id`. -/
def Server.get_clients_id {σ : Type} (s : Server σ) : List ClientId :=
  keysOf s.clients

/-- Method `Server::process_payload_from`: route one inbound `(payload, addr)` pair —
fast-path to a live session by address, else capacity check, else an existing
pending handshake by address, else first contact (build the protocol from
the payload; a construction failure propagates as the `Err` of the `?`
operator and creates nothing). -/
def Server.process_payload_from {σ : Type} (ops : ProtocolOps σ) (s : Server σ)
    (payload : Payload) (addr : SockAddr) : Except Unit (Server σ) :=
  match s.clients.find? fun kc => kc.2.addr == addr with
  | some _ =>
      let cl := updFirst (fun kc => kc.2.addr == addr)
        (fun kc => (kc.1, kc.2.process_payload payload)) s.clients
      Except.ok { s with clients := cl }
  | none =>
      if s.clients.length ≥ s.config.max_clients then
        Except.ok s
      else
        match s.connecting.find? fun kh => kh.2.addr == addr with
        | some _ =>
            let cn := updFirst (fun kh => kh.2.addr == addr)
              (fun kh => (kh.1, kh.2.process_payload ops payload)) s.connecting
            Except.ok { s with connecting := cn }
        | none =>
            match ops.fromPayload payload with
            | none => Except.error ()
            | some prot =>
                let id := ops.protId prot
                let cn := insertA s.connecting id ⟨id, addr, prot⟩
                Except.ok { s with connecting := cn }

/-- Wrapper: `process_payload_from` as a state transformer — a returned error is logged
by the caller (`process_events`) and leaves the state as the call left it —
on the only error path (protocol construction failure) nothing was mutated. -/
def processPayloadFromState {σ : Type} (ops : ProtocolOps σ) (s : Server σ)
    (payload : Payload) (addr : SockAddr) : Server σ :=
  match Server.process_payload_from ops s payload addr with
  | Except.ok s' => s'
  | Except.error _ => s

/-- The first phase of `process_events`: advance every session's channel
clock to the tick's timestamp. -/
def clockUpdate {σ : Type} (s : Server σ) (now : Nat) : Server σ :=
  { s with clients := mapVals (fun c => c.update_channels_current_time now) s.clients }

/-- One result of `socket.recv_from` in the drain loop of `process_events`:
a datagram, a `WouldBlock` ("no data ready"), or another I/O error. -/
inductive SocketInput where
  | dgram (payload : Payload) (addr : SockAddr)
  | wouldBlock
  | ioFailure
deriving DecidableEq, Repr

/-- Whether a socket receive result is a datagram. -/
def SocketInput.isDgram : SocketInput → Bool
  | SocketInput.dgram _ _ => true
  | _ => false

/-- The drain loop of `process_events`: process datagrams (truncated to the
`max_payload_size` receive buffer) until the socket reports `WouldBlock`
(clean stop, `Ok`) or another I/O error (`Err`); a `process_payload_from`
error is logged and the loop continues. The boolean is `true` for the `Ok`
outcome. An exhausted trace is treated as a clean stop — a non-blocking
socket always ends a tick's traffic with `WouldBlock`. -/
def drainLoop {σ : Type} (ops : ProtocolOps σ) (s : Server σ) :
    List SocketInput → Server σ × Bool
  | [] => (s, true)
  | SocketInput.dgram p a :: rest =>
      drainLoop ops (processPayloadFromState ops s (p.take s.config.max_payload_size) a) rest
  | SocketInput.wouldBlock :: _ => (s, true)
  | SocketInput.ioFailure :: _ => (s, false)

/-- Method `Server::process_events`: advance the channel clocks, then drain the
socket. The boolean is `true` iff the drain ended without a fatal I/O
error. -/
def Server.process_events {σ : Type} (ops : ProtocolOps σ) (s : Server σ) (now : Nat)
    (trace : List SocketInput) : Server σ × Bool :=
  drainLoop ops (clockUpdate s now) trace

/-- The body of the promotion loop in `update_pending_connections`, for one
collected client id: remove the handshake entry (the source's `.expect`
cannot fail because every entry's key equals its `client_id`; the model
returns the state unchanged on the impossible missing key), drop it if the
session map is full, otherwise build the session — a fresh endpoint, the
protocol's security context, and one channel per configured channel id, each
built with the orchestrator's `current_time` — then enqueue
`ClientConnected` and insert the session. -/
def promoteOne {σ : Type} (ops : ProtocolOps σ) (s : Server σ) (client_id : ClientId) :
    Server σ :=
  match lookupA s.connecting client_id with
  | none => s
  | some h =>
      let s' := { s with connecting := removeA s.connecting client_id }
      if s'.clients.length ≥ s'.config.max_clients then
        s'
      else
        let conn0 := Connection.new h.addr (ops.buildSecurity h.protocol)
        let conn := s'.channels_config.foldl
          (fun c kc => c.add_channel kc.1 (kc.2.new_channel s'.current_time)) conn0
        { s' with
          events := s'.events ++ [Event.clientConnected h.client_id],
          clients := insertA s'.clients h.client_id conn }

/-- Method `Server::update_pending_connections`: scan the pending handshakes —
collect the authenticated ones, and for each of the others send its next
handshake payload (if the protocol has one ready); then run the promotion
loop over the collected ids. -/
def Server.update_pending_connections {σ : Type} (ops : ProtocolOps σ) (s : Server σ) :
    Server σ :=
  let connected := (s.connecting.filter fun kh => ops.isAuthenticated kh.2.protocol).map
    fun kh => kh.2.client_id
  let resends := (s.connecting.filter fun kh => !ops.isAuthenticated kh.2.protocol).filterMap
    fun kh =>
      match ops.createPayload kh.2.protocol with
      | some (some p) => some (kh.2.addr, p)
      | _ => none
  let s1 := { s with sent := s.sent ++ resends }
  connected.foldl (fun acc cid => promoteOne ops acc cid) s1

/-- Method `Server::update`: run `process_events` for this tick — an error is logged
(`error!`) and absorbed — then always run `update_pending_connections`. -/
def Server.update {σ : Type} (ops : ProtocolOps σ) (s : Server σ) (now : Nat)
    (trace : List SocketInput) : Server σ :=
  Server.update_pending_connections ops (Server.process_events ops s now trace).1

/-- Method `Server::send_packets`: for every session, take its next outbound packet
if one is ready and transmit it to the session's address (a per-session
failure is logged and does not affect other sessions). -/
def Server.send_packets {σ : Type} (s : Server σ) : Server σ :=
  { s with
    clients := mapVals (fun c => (c.get_packet).2) s.clients,
    sent := (s.sent ++ s.clients.filterMap fun kc =>
      (kc.2.get_packet).1.map fun p => (kc.2.addr, p)) }

/-- Auxiliary fuel-bounded loop for draining the event queue through
`Server::get_event`; the fuel only bounds the recursion and is chosen large
enough (the queue length) that the loop always runs until `get_event`
reports an empty queue. -/
def drainEventsAux {σ : Type} : Nat → Server σ → List Event
  | 0, _ => []
  | Nat.succ n, s =>
      match s.get_event with
      | (some e, s') => e :: drainEventsAux n s'
      | (none, _) => []

/-- Repeatedly call `Server::get_event` until it reports an empty queue,
collecting the drained events in order. -/
def Server.drain_events {σ : Type} (s : Server σ) : List Event :=
  drainEventsAux s.events.length s

/-- One public mutating operation of the orchestrator, as observed by the
embedding application: the step relation of the reachability analysis. -/
inductive Step {σ : Type} (ops : ProtocolOps σ) : Server σ → Server σ → Prop where
  | processPayload (s : Server σ) (p : Payload) (a : SockAddr) :
      Step ops s (processPayloadFromState ops s p a)
  | update (s : Server σ) (now : Nat) (trace : List SocketInput) :
      Step ops s (Server.update ops s now trace)
  | sendPackets (s : Server σ) :
      Step ops s (Server.send_packets s)
  | getEvent (s : Server σ) :
      Step ops s (s.get_event).2
  | getClientNetworkInfo (s : Server σ) (cid : ClientId) :
      Step ops s (s.get_client_network_info cid).2
  | sendMessageToClient (s : Server σ) (cid : ClientId) (ch : Nat) (m : Payload) :
      Step ops s (s.send_message_to_client cid ch m)
  | sendMessageToAllClients (s : Server σ) (ch : Nat) (m : Payload) :
      Step ops s (s.send_message_to_all_clients ch m)
  | getMessagesFromClient (s : Server σ) (cid : ClientId) (ch : Nat) :
      Step ops s (s.get_messages_from_client cid ch).2
  | getMessagesFromChannel (s : Server σ) (ch : Nat) :
      Step ops s (s.get_messages_from_channel ch).2

/-- The orchestrator states reachable from a freshly constructed `Server` by
any sequence of public operations. -/
inductive Reachable {σ : Type} (ops : ProtocolOps σ) (config : ServerConfig)
    (ecfg : EndpointConfig) (ccfg : List (Nat × ChannelConfig)) (t0 : Nat) :
    Server σ → Prop where
  | init : Reachable ops config ecfg ccfg t0 (Server.new config ecfg ccfg t0)
  | step {s s' : Server σ} : Reachable ops config ecfg ccfg t0 s → Step ops s s' →
      Reachable ops config ecfg ccfg t0 s'

/-- The conjunction of structural facts preserved by every public operation:
the configuration fields are frozen at construction, the capacity bound
holds, map keys are unique, every pending entry's key equals its
`client_id` (the source relies on this for the promotion loop's `.expect`),
and every session's channel keys are exactly the configured channel keys. -/
structure Inv {σ : Type} (config : ServerConfig) (ccfg : List (Nat × ChannelConfig))
    (t0 : Nat) (s : Server σ) : Prop where
  config_eq : s.config = config
  ccfg_eq : s.channels_config = ccfg
  ccfg_nodup : (keysOf ccfg).Nodup
  time_eq : s.current_time = t0
  cap : s.clients.length ≤ config.max_clients
  nodup_clients : (keysOf s.clients).Nodup
  nodup_connecting : (keysOf s.connecting).Nodup
  key_eq_id : ∀ kh ∈ s.connecting, kh.2.client_id = kh.1
  chan_keys : ∀ kc ∈ s.clients, keysOf kc.2.channels = keysOf ccfg

/-- No client id is simultaneously a key of the session map and a key of the
pending-handshake map. -/
def IdsDisjoint {σ : Type} (s : Server σ) : Prop :=
  ∀ cid : ClientId, (lookupA s.clients cid).isSome → lookupA s.connecting cid = none

/-- The routing of one datagram is collision-free: if it reaches the
first-contact branch of `process_payload_from`, the protocol-assigned client
id is not currently a session key. -/
def NoCollide {σ : Type} (ops : ProtocolOps σ) (s : Server σ) (payload : Payload)
    (addr : SockAddr) : Prop :=
  ∀ prot, (s.clients.find? fun kc => kc.2.addr == addr) = none →
    s.clients.length < s.config.max_clients →
    (s.connecting.find? fun kh => kh.2.addr == addr) = none →
    ops.fromPayload payload = some prot →
    lookupA s.clients (ops.protId prot) = none

/-- Collision-freedom for every datagram of a tick's socket trace, threaded
through the intermediate states of the drain loop. -/
def TraceNoCollide {σ : Type} (ops : ProtocolOps σ) : Server σ → List SocketInput → Prop
  | _, [] => True
  | s, SocketInput.dgram p a :: rest =>
      NoCollide ops s (p.take s.config.max_payload_size) a ∧
      TraceNoCollide ops (processPayloadFromState ops s (p.take s.config.max_payload_size) a) rest
  | _, SocketInput.wouldBlock :: _ => True
  | _, SocketInput.ioFailure :: _ => True

/-- The step relation restricted to collision-free operations: identical to
`Step` except that a routed datagram (directly or inside an `update` tick)
must satisfy `NoCollide`. -/
inductive StepNC {σ : Type} (ops : ProtocolOps σ) : Server σ → Server σ → Prop where
  | processPayload (s : Server σ) (p : Payload) (a : SockAddr)
      (h : NoCollide ops s p a) :
      StepNC ops s (processPayloadFromState ops s p a)
  | update (s : Server σ) (now : Nat) (trace : List SocketInput)
      (h : TraceNoCollide ops (clockUpdate s now) trace) :
      StepNC ops s (Server.update ops s now trace)
  | sendPackets (s : Server σ) :
      StepNC ops s (Server.send_packets s)
  | getEvent (s : Server σ) :
      StepNC ops s (s.get_event).2
  | getClientNetworkInfo (s : Server σ) (cid : ClientId) :
      StepNC ops s (s.get_client_network_info cid).2
  | sendMessageToClient (s : Server σ) (cid : ClientId) (ch : Nat) (m : Payload) :
      StepNC ops s (s.send_message_to_client cid ch m)
  | sendMessageToAllClients (s : Server σ) (ch : Nat) (m : Payload) :
      StepNC ops s (s.send_message_to_all_clients ch m)
  | getMessagesFromClient (s : Server σ) (cid : ClientId) (ch : Nat) :
      StepNC ops s (s.get_messages_from_client cid ch).2
  | getMessagesFromChannel (s : Server σ) (ch : Nat) :
      StepNC ops s (s.get_messages_from_channel ch).2

/-- Any number of collision-free public operations. -/
def RunNC {σ : Type} (ops : ProtocolOps σ) : Server σ → Server σ → Prop :=
  Relation.ReflTransGen (StepNC ops)

/-- A concrete authentication protocol instance for concrete runs: the
protocol state is the assigned client id, read from the first payload byte,
and authentication succeeds immediately. A peer keeps its client id when it
handshakes again from a new address, which is how the same id can be
assigned while a session under that id is still alive. -/
def demoOps : ProtocolOps Nat where
  fromPayload := fun p => some (p.headD 0)
  protId := fun st => st
  isAuthenticated := fun _ => true
  createPayload := fun _ => some none
  processPayload := fun st _ => some st
  buildSecurity := fun _ => 0

/-- A concrete two-client configuration. -/
def demoConfig : ServerConfig := { max_clients := 2, max_payload_size := 100 }

/-- A concrete endpoint configuration. -/
def demoEcfg : EndpointConfig := { tag := 0 }

/-- A fresh demo orchestrator (no channels configured). -/
def demoS0 : Server Nat := Server.new demoConfig demoEcfg [] 0

/-- After a first-contact datagram from address 10 assigned client id 1:
one pending handshake. -/
def demoS1 : Server Nat := processPayloadFromState demoOps demoS0 [1] 10

/-- After one `update` tick with no inbound traffic: the authenticated
handshake for client 1 has been promoted to a session. -/
def demoS2 : Server Nat := Server.update demoOps demoS1 5 []

/-- After a first-contact datagram from the new address 20 that is again
assigned client id 1 while the session for client 1 is still alive: client
id 1 is now a key of both maps at once. -/
def demoS3 : Server Nat := processPayloadFromState demoOps demoS2 [1] 20

/-- The session built at promotion time: a fresh connection at the
handshake's address with the protocol's security context, one configured
channel per configured channel id, each built with the orchestrator's
`current_time`. -/
def freshSession {σ : Type} (ops : ProtocolOps σ) (s : Server σ)
    (hc : HandleConnection σ) : Connection :=
  s.channels_config.foldl
    (fun c kc => c.add_channel kc.1 (kc.2.new_channel s.current_time))
    (Connection.new hc.addr (ops.buildSecurity hc.protocol))

/-- The state reached by routing, in order, the datagrams of a socket-trace
prefix (non-datagram entries are skipped; the claims use it only on
all-datagram prefixes). -/
def procList {σ : Type} (ops : ProtocolOps σ) (s : Server σ) : List SocketInput → Server σ
  | [] => s
  | SocketInput.dgram p a :: rest =>
      procList ops (processPayloadFromState ops s (p.take s.config.max_payload_size) a) rest
  | _ :: rest => procList ops s rest

/-- A concrete channel configuration map with two channels. -/
def demoCcfg : List (Nat × ChannelConfig) := [(3, ⟨0⟩), (4, ⟨1⟩)]

/-- A fresh demo orchestrator with the two-channel configuration. -/
def chanS0 : Server Nat := Server.new demoConfig demoEcfg demoCcfg 0

/-- One first-contact datagram from address 10, assigned client id 1. -/
def chanS1 : Server Nat := processPayloadFromState demoOps chanS0 [1] 10

/-- One `update` tick at time 5: client 1 is promoted; its channels were
built with the construction-time timestamp 0. -/
def chanS2 : Server Nat := Server.update demoOps chanS1 5 []

/-- The session that promotion builds for client 1 under `demoCcfg` at
construction time 0. -/
def demoPromotedConn : Connection :=
  { addr := 10, security := 0, received := [], packets := [],
    channels := [(3, { time := 0, inbound := [], outbound := [] }),
                 (4, { time := 0, inbound := [], outbound := [] })] }

/-- A session with one configured channel whose inbound buffer is empty. -/
def demoConnC : Connection :=
  { addr := 10, security := 0, received := [], packets := [],
    channels := [(3, { time := 0, inbound := [], outbound := [] })] }

/-- A concrete orchestrator state holding the session `demoConnC` under
client id 1. -/
def demoMsgServer : Server Nat :=
  { config := demoConfig, clients := [(1, demoConnC)], connecting := [],
    channels_config := [(3, ⟨0⟩)], endpoint_config := demoEcfg,
    current_time := 0, events := [], sent := [] }

/-- A concrete orchestrator state that is exactly at capacity (two sessions,
`max_clients = 2`) while a handshake for client 7 is pending. -/
def demoFull : Server Nat :=
  { config := demoConfig,
    clients := [(1, Connection.new 10 0), (2, Connection.new 11 0)],
    connecting := [(7, ⟨7, 30, 7⟩)], channels_config := [],
    endpoint_config := demoEcfg, current_time := 0, events := [], sent := [] }

-- THEOREMS

@[simp] theorem keysOf_nil {α : Type} : keysOf ([] : List (Nat × α)) = [] := rfl

@[simp] theorem keysOf_cons {α : Type} (kv : Nat × α) (l : List (Nat × α)) :
    keysOf (kv :: l) = kv.1 :: keysOf l := rfl

@[simp] theorem lookupA_nil {α : Type} (k : Nat) :
    lookupA ([] : List (Nat × α)) k = none := rfl

theorem lookupA_cons {α : Type} (kv : Nat × α) (l : List (Nat × α)) (k : Nat) :
    lookupA (kv :: l) k = if kv.1 = k then some kv.2 else lookupA l k := rfl

@[simp] theorem insertA_nil {α : Type} (k : Nat) (v : α) :
    insertA ([] : List (Nat × α)) k v = [(k, v)] := rfl

theorem insertA_cons {α : Type} (kv : Nat × α) (l : List (Nat × α)) (k : Nat) (v : α) :
    insertA (kv :: l) k v = if kv.1 = k then (k, v) :: l else kv :: insertA l k v := rfl

@[simp] theorem removeA_nil {α : Type} (k : Nat) :
    removeA ([] : List (Nat × α)) k = [] := rfl

theorem removeA_cons {α : Type} (kv : Nat × α) (l : List (Nat × α)) (k : Nat) :
    removeA (kv :: l) k = if kv.1 = k then removeA l k else kv :: removeA l k := rfl

@[simp] theorem updateA_nil {α : Type} (k : Nat) (f : α → α) :
    updateA ([] : List (Nat × α)) k f = [] := rfl

theorem updateA_cons {α : Type} (kv : Nat × α) (l : List (Nat × α)) (k : Nat) (f : α → α) :
    updateA (kv :: l) k f = (if kv.1 = k then (kv.1, f kv.2) else kv) :: updateA l k f := rfl

@[simp] theorem mapVals_nil {α : Type} (f : α → α) :
    mapVals f ([] : List (Nat × α)) = [] := rfl

@[simp] theorem mapVals_cons {α : Type} (f : α → α) (kv : Nat × α) (l : List (Nat × α)) :
    mapVals f (kv :: l) = (kv.1, f kv.2) :: mapVals f l := rfl

@[simp] theorem updFirst_nil {α : Type} (p : α → Bool) (f : α → α) :
    updFirst p f ([] : List α) = [] := rfl

theorem updFirst_cons {α : Type} (p : α → Bool) (f : α → α) (x : α) (l : List α) :
    updFirst p f (x :: l) = if p x then f x :: l else x :: updFirst p f l := rfl

theorem lookupA_isSome_iff_mem_keysOf {α : Type} (l : List (Nat × α)) (k : Nat) :
    (lookupA l k).isSome ↔ k ∈ keysOf l := by
  induction l with
  | nil => simp
  | cons kv rest ih =>
    rw [lookupA_cons, keysOf_cons]
    by_cases h : kv.1 = k
    · simp [h]
    · have : ¬(k = kv.1) := fun hh => h hh.symm
      simp [h, this, ih]

theorem lookupA_eq_none_iff_not_mem {α : Type} (l : List (Nat × α)) (k : Nat) :
    lookupA l k = none ↔ k ∉ keysOf l := by
  rw [← lookupA_isSome_iff_mem_keysOf]
  cases lookupA l k <;> simp

theorem keysOf_insertA_of_mem {α : Type} (l : List (Nat × α)) (k : Nat) (v : α)
    (h : k ∈ keysOf l) : keysOf (insertA l k v) = keysOf l := by
  induction l with
  | nil => simp at h
  | cons kv rest ih =>
    rw [keysOf_cons] at h
    rw [insertA_cons]
    by_cases hk : kv.1 = k
    · simp [hk]
    · have hmem : k ∈ keysOf rest := by
        rcases List.mem_cons.mp h with h1 | h1
        · exact absurd h1.symm hk
        · exact h1
      simp [hk, ih hmem]

theorem keysOf_insertA_of_not_mem {α : Type} (l : List (Nat × α)) (k : Nat) (v : α)
    (h : k ∉ keysOf l) : keysOf (insertA l k v) = keysOf l ++ [k] := by
  induction l with
  | nil => simp
  | cons kv rest ih =>
    rw [keysOf_cons] at h
    have h1 : kv.1 ≠ k := fun hh => h (by simp [hh])
    have h2 : k ∉ keysOf rest := fun hh => h (by simp [hh])
    rw [insertA_cons, if_neg h1, keysOf_cons, ih h2, keysOf_cons]
    simp

theorem length_insertA_of_mem {α : Type} (l : List (Nat × α)) (k : Nat) (v : α)
    (h : k ∈ keysOf l) : (insertA l k v).length = l.length := by
  have h1 : (keysOf (insertA l k v)).length = (keysOf l).length := by
    rw [keysOf_insertA_of_mem l k v h]
  simpa [keysOf] using h1

theorem length_insertA_of_not_mem {α : Type} (l : List (Nat × α)) (k : Nat) (v : α)
    (h : k ∉ keysOf l) : (insertA l k v).length = l.length + 1 := by
  have h1 : (keysOf (insertA l k v)).length = (keysOf l).length + 1 := by
    rw [keysOf_insertA_of_not_mem l k v h]; simp
  simpa [keysOf] using h1

theorem nodup_keysOf_insertA {α : Type} (l : List (Nat × α)) (k : Nat) (v : α)
    (h : (keysOf l).Nodup) : (keysOf (insertA l k v)).Nodup := by
  by_cases hk : k ∈ keysOf l
  · rwa [keysOf_insertA_of_mem l k v hk]
  · rw [keysOf_insertA_of_not_mem l k v hk]
    simpa [List.nodup_append] using ⟨h, fun h' => hk h'⟩

theorem lookupA_insertA_self {α : Type} (l : List (Nat × α)) (k : Nat) (v : α) :
    lookupA (insertA l k v) k = some v := by
  induction l with
  | nil => simp [lookupA_cons]
  | cons kv rest ih =>
    rw [insertA_cons]
    by_cases hk : kv.1 = k
    · simp [hk, lookupA_cons]
    · rw [if_neg hk, lookupA_cons, if_neg hk]
      exact ih

theorem lookupA_insertA_ne {α : Type} (l : List (Nat × α)) (k j : Nat) (v : α)
    (h : j ≠ k) : lookupA (insertA l k v) j = lookupA l j := by
  induction l with
  | nil =>
    rw [insertA_nil, lookupA_cons]
    simp [Ne.symm h]
  | cons kv rest ih =>
    rw [insertA_cons]
    by_cases hk : kv.1 = k
    · rw [if_pos hk, lookupA_cons, lookupA_cons]
      simp [hk, Ne.symm h]
    · rw [if_neg hk, lookupA_cons, lookupA_cons]
      by_cases hj : kv.1 = j
      · simp [hj]
      · simp [hj, ih]

theorem keysOf_removeA {α : Type} (l : List (Nat × α)) (k : Nat) :
    keysOf (removeA l k) = (keysOf l).filter (fun j => decide (j ≠ k)) := by
  induction l with
  | nil => simp
  | cons kv rest ih =>
    rw [removeA_cons]
    by_cases hk : kv.1 = k
    · rw [if_pos hk, ih, keysOf_cons, List.filter_cons]
      simp [hk]
    · rw [if_neg hk, keysOf_cons, ih, keysOf_cons, List.filter_cons]
      simp [hk]

theorem lookupA_removeA_self {α : Type} (l : List (Nat × α)) (k : Nat) :
    lookupA (removeA l k) k = none := by
  rw [lookupA_eq_none_iff_not_mem, keysOf_removeA]
  simp

theorem lookupA_removeA_ne {α : Type} (l : List (Nat × α)) (k j : Nat) (h : j ≠ k) :
    lookupA (removeA l k) j = lookupA l j := by
  induction l with
  | nil => simp
  | cons kv rest ih =>
    rw [removeA_cons]
    by_cases hk : kv.1 = k
    · have hj : kv.1 ≠ j := by rw [hk]; exact fun hh => h hh.symm
      rw [if_pos hk, ih, lookupA_cons, if_neg hj]
    · rw [if_neg hk, lookupA_cons, lookupA_cons]
      by_cases hj : kv.1 = j
      · simp [hj]
      · simp [hj, ih]

theorem nodup_keysOf_removeA {α : Type} (l : List (Nat × α)) (k : Nat)
    (h : (keysOf l).Nodup) : (keysOf (removeA l k)).Nodup := by
  rw [keysOf_removeA]
  exact h.filter _

theorem length_removeA_le {α : Type} (l : List (Nat × α)) (k : Nat) :
    (removeA l k).length ≤ l.length := by
  induction l with
  | nil => simp
  | cons kv rest ih =>
    rw [removeA_cons]
    by_cases hk : kv.1 = k
    · rw [if_pos hk]; simpa using Nat.le_succ_of_le ih
    · rw [if_neg hk]; simpa using ih

theorem keysOf_updateA {α : Type} (l : List (Nat × α)) (k : Nat) (f : α → α) :
    keysOf (updateA l k f) = keysOf l := by
  induction l with
  | nil => simp
  | cons kv rest ih =>
    rw [updateA_cons, keysOf_cons, keysOf_cons, ih]
    by_cases hk : kv.1 = k <;> simp [hk]

theorem lookupA_updateA_self {α : Type} (l : List (Nat × α)) (k : Nat) (f : α → α) :
    lookupA (updateA l k f) k = (lookupA l k).map f := by
  induction l with
  | nil => simp
  | cons kv rest ih =>
    rw [updateA_cons]
    by_cases hk : kv.1 = k
    · simp only [if_pos hk]
      rw [lookupA_cons, lookupA_cons]
      simp [hk]
    · simp only [if_neg hk]
      rw [lookupA_cons, if_neg hk, lookupA_cons, if_neg hk]
      exact ih

theorem lookupA_updateA_ne {α : Type} (l : List (Nat × α)) (k j : Nat) (f : α → α)
    (h : j ≠ k) : lookupA (updateA l k f) j = lookupA l j := by
  induction l with
  | nil => simp
  | cons kv rest ih =>
    rw [updateA_cons, lookupA_cons, lookupA_cons]
    by_cases hk : kv.1 = k
    · have hj : kv.1 ≠ j := by rw [hk]; exact fun hh => h hh.symm
      rw [if_pos hk]
      simp only [hk, if_neg (fun hh : k = j => h hh.symm), if_neg hj]
      exact ih
    · rw [if_neg hk]
      by_cases hj : kv.1 = j
      · simp [hj]
      · simp [hj, ih]

theorem keysOf_mapVals {α : Type} (f : α → α) (l : List (Nat × α)) :
    keysOf (mapVals f l) = keysOf l := by
  induction l with
  | nil => simp
  | cons kv rest ih => simp [ih]

theorem lookupA_mapVals {α : Type} (f : α → α) (l : List (Nat × α)) (k : Nat) :
    lookupA (mapVals f l) k = (lookupA l k).map f := by
  induction l with
  | nil => simp
  | cons kv rest ih =>
    rw [mapVals_cons, lookupA_cons, lookupA_cons]
    by_cases hk : kv.1 = k
    · simp [hk]
    · simp [hk, ih]

theorem keysOf_updFirst {α : Type} (p : Nat × α → Bool) (g : Nat × α → α)
    (l : List (Nat × α)) :
    keysOf (updFirst p (fun kv => (kv.1, g kv)) l) = keysOf l := by
  induction l with
  | nil => simp
  | cons kv rest ih =>
    rw [updFirst_cons]
    by_cases hp : p kv
    · simp [hp]
    · simp [hp, ih]

theorem lookupA_mem {α : Type} (l : List (Nat × α)) (k : Nat) (v : α)
    (h : lookupA l k = some v) : (k, v) ∈ l := by
  induction l with
  | nil => simp at h
  | cons kv rest ih =>
    rw [lookupA_cons] at h
    by_cases hk : kv.1 = k
    · rw [if_pos hk] at h
      simp only [Option.some.injEq] at h
      have hkv : kv = (k, v) := by
        obtain ⟨a, b⟩ := kv
        simp only at hk h
        rw [hk, h]
      rw [← hkv]
      exact List.mem_cons_self _ _
    · rw [if_neg hk] at h
      exact List.mem_cons_of_mem _ (ih h)

theorem mem_insertA {α : Type} (l : List (Nat × α)) (k : Nat) (v : α) (x : Nat × α)
    (hx : x ∈ insertA l k v) : x ∈ l ∨ x = (k, v) := by
  induction l with
  | nil => simp at hx; right; exact hx
  | cons kv rest ih =>
    rw [insertA_cons] at hx
    by_cases hk : kv.1 = k
    · rw [if_pos hk] at hx
      rcases List.mem_cons.mp hx with h | h
      · right; exact h
      · left; exact List.mem_cons_of_mem _ h
    · rw [if_neg hk] at hx
      rcases List.mem_cons.mp hx with h | h
      · left; rw [h]; exact List.mem_cons_self _ _
      · rcases ih h with h1 | h1
        · left; exact List.mem_cons_of_mem _ h1
        · right; exact h1

theorem mem_removeA {α : Type} (l : List (Nat × α)) (k : Nat) (x : Nat × α)
    (hx : x ∈ removeA l k) : x ∈ l := by
  induction l with
  | nil => simp at hx
  | cons kv rest ih =>
    rw [removeA_cons] at hx
    by_cases hk : kv.1 = k
    · rw [if_pos hk] at hx
      exact List.mem_cons_of_mem _ (ih hx)
    · rw [if_neg hk] at hx
      rcases List.mem_cons.mp hx with h | h
      · rw [h]; exact List.mem_cons_self _ _
      · exact List.mem_cons_of_mem _ (ih h)

theorem mem_updateA {α : Type} (l : List (Nat × α)) (k : Nat) (f : α → α) (x : Nat × α)
    (hx : x ∈ updateA l k f) : ∃ y ∈ l, x = y ∨ x = (y.1, f y.2) := by
  induction l with
  | nil => simp at hx
  | cons kv rest ih =>
    rw [updateA_cons] at hx
    rcases List.mem_cons.mp hx with h | h
    · refine ⟨kv, List.mem_cons_self _ _, ?_⟩
      by_cases hk : kv.1 = k
      · rw [if_pos hk] at h; right; exact h
      · rw [if_neg hk] at h; left; exact h
    · obtain ⟨y, hy, hxy⟩ := ih h
      exact ⟨y, List.mem_cons_of_mem _ hy, hxy⟩

theorem mem_mapVals {α : Type} (f : α → α) (l : List (Nat × α)) (x : Nat × α)
    (hx : x ∈ mapVals f l) : ∃ y ∈ l, x = (y.1, f y.2) := by
  induction l with
  | nil => simp at hx
  | cons kv rest ih =>
    rw [mapVals_cons] at hx
    rcases List.mem_cons.mp hx with h | h
    · exact ⟨kv, List.mem_cons_self _ _, h⟩
    · obtain ⟨y, hy, hxy⟩ := ih h
      exact ⟨y, List.mem_cons_of_mem _ hy, hxy⟩

theorem mem_updFirst {α : Type} (p : α → Bool) (f : α → α) (l : List α) (x : α)
    (hx : x ∈ updFirst p f l) : x ∈ l ∨ ∃ y ∈ l, x = f y := by
  induction l with
  | nil => simp at hx
  | cons z rest ih =>
    rw [updFirst_cons] at hx
    by_cases hp : p z
    · rw [if_pos hp] at hx
      rcases List.mem_cons.mp hx with h | h
      · right; exact ⟨z, List.mem_cons_self _ _, h⟩
      · left; exact List.mem_cons_of_mem _ h
    · rw [if_neg hp] at hx
      rcases List.mem_cons.mp hx with h | h
      · left; rw [h]; exact List.mem_cons_self _ _
      · rcases ih h with h1 | ⟨y, hy, hxy⟩
        · left; exact List.mem_cons_of_mem _ h1
        · right; exact ⟨y, List.mem_cons_of_mem _ hy, hxy⟩

theorem insertA_eq_append_of_not_mem {α : Type} (l : List (Nat × α)) (k : Nat) (v : α)
    (h : k ∉ keysOf l) : insertA l k v = l ++ [(k, v)] := by
  induction l with
  | nil => simp
  | cons kv rest ih =>
    rw [keysOf_cons] at h
    have h1 : kv.1 ≠ k := fun hh => h (by simp [hh])
    have h2 : k ∉ keysOf rest := fun hh => h (by simp [hh])
    rw [insertA_cons, if_neg h1, ih h2, List.cons_append]

theorem length_updFirst {α : Type} (p : α → Bool) (f : α → α) (l : List α) :
    (updFirst p f l).length = l.length := by
  induction l with
  | nil => simp
  | cons z rest ih =>
    rw [updFirst_cons]
    by_cases hp : p z
    · rw [if_pos hp]; simp
    · rw [if_neg hp]; simp [ih]

theorem find?_updFirst_split {α : Type} (q : α → Bool) (f : α → α) (l : List α) (x : α)
    (h : l.find? q = some x) :
    ∃ pre post, l = pre ++ x :: post ∧ (∀ y ∈ pre, q y = false) ∧ q x = true ∧
      updFirst q f l = pre ++ f x :: post := by
  induction l with
  | nil => simp at h
  | cons z rest ih =>
    by_cases hq : q z
    · rw [List.find?_cons_of_pos _ hq] at h
      obtain rfl : z = x := by simpa using h
      exact ⟨[], rest, by simp, by simp, hq, by rw [updFirst_cons, if_pos hq]; simp⟩
    · rw [List.find?_cons_of_neg _ hq] at h
      obtain ⟨pre, post, hsplit, hpre, hx, hupd⟩ := ih h
      refine ⟨z :: pre, post, by rw [hsplit]; simp, ?_, hx, ?_⟩
      · intro y hy
        rcases List.mem_cons.mp hy with hy1 | hy1
        · rw [hy1]; simpa using hq
        · exact hpre y hy1
      · rw [updFirst_cons, if_neg hq, hupd]
        simp

theorem channels_process_payload (c : Connection) (p : Payload) :
    (c.process_payload p).channels = c.channels := rfl

theorem addr_process_payload (c : Connection) (p : Payload) :
    (c.process_payload p).addr = c.addr := rfl

theorem channels_keys_send_message (c : Connection) (ch : Nat) (m : Payload) :
    keysOf (c.send_message ch m).channels = keysOf c.channels := by
  simp only [Connection.send_message]
  exact keysOf_updateA _ _ _

theorem channels_keys_receive_all (c : Connection) (ch : Nat) :
    keysOf (c.receive_all_messages_from_channel ch).2.channels = keysOf c.channels := by
  unfold Connection.receive_all_messages_from_channel
  cases lookupA c.channels ch with
  | none => rfl
  | some x => exact keysOf_updateA _ _ _

theorem channels_keys_update_time (c : Connection) (t : Nat) :
    keysOf (c.update_channels_current_time t).channels = keysOf c.channels := by
  simp only [Connection.update_channels_current_time]
  exact keysOf_mapVals _ _

theorem channels_get_packet (c : Connection) :
    (c.get_packet).2.channels = c.channels := by
  unfold Connection.get_packet
  cases c.packets <;> rfl

theorem client_id_handle_process {σ : Type} (ops : ProtocolOps σ)
    (h : HandleConnection σ) (p : Payload) :
    (h.process_payload ops p).client_id = h.client_id := by
  unfold HandleConnection.process_payload
  cases ops.processPayload h.protocol p <;> rfl

theorem addr_handle_process {σ : Type} (ops : ProtocolOps σ)
    (h : HandleConnection σ) (p : Payload) :
    (h.process_payload ops p).addr = h.addr := by
  unfold HandleConnection.process_payload
  cases ops.processPayload h.protocol p <;> rfl

theorem ppf_fast {σ : Type} (ops : ProtocolOps σ) (s : Server σ) (p : Payload)
    (a : SockAddr) (kc0 : ClientId × Connection)
    (hfind : (s.clients.find? fun kc => kc.2.addr == a) = some kc0) :
    Server.process_payload_from ops s p a =
      Except.ok { s with clients := (updFirst (fun kc => kc.2.addr == a)
        (fun kc => (kc.1, kc.2.process_payload p)) s.clients) } := by
  unfold Server.process_payload_from
  rw [hfind]

theorem ppf_full {σ : Type} (ops : ProtocolOps σ) (s : Server σ) (p : Payload)
    (a : SockAddr)
    (hfind : (s.clients.find? fun kc => kc.2.addr == a) = none)
    (hcap : s.clients.length ≥ s.config.max_clients) :
    Server.process_payload_from ops s p a = Except.ok s := by
  unfold Server.process_payload_from
  rw [hfind]
  simp only [if_pos hcap]

theorem ppf_pending {σ : Type} (ops : ProtocolOps σ) (s : Server σ) (p : Payload)
    (a : SockAddr) (kh0 : ClientId × HandleConnection σ)
    (hfind : (s.clients.find? fun kc => kc.2.addr == a) = none)
    (hcap : ¬s.clients.length ≥ s.config.max_clients)
    (hfind2 : (s.connecting.find? fun kh => kh.2.addr == a) = some kh0) :
    Server.process_payload_from ops s p a =
      Except.ok { s with connecting := (updFirst (fun kh => kh.2.addr == a)
        (fun kh => (kh.1, kh.2.process_payload ops p)) s.connecting) } := by
  unfold Server.process_payload_from
  rw [hfind]
  simp only [if_neg hcap]
  rw [hfind2]

theorem ppf_first {σ : Type} (ops : ProtocolOps σ) (s : Server σ) (p : Payload)
    (a : SockAddr) (prot : σ)
    (hfind : (s.clients.find? fun kc => kc.2.addr == a) = none)
    (hcap : ¬s.clients.length ≥ s.config.max_clients)
    (hfind2 : (s.connecting.find? fun kh => kh.2.addr == a) = none)
    (hproto : ops.fromPayload p = some prot) :
    Server.process_payload_from ops s p a =
      Except.ok { s with connecting := (insertA s.connecting (ops.protId prot)
        ⟨ops.protId prot, a, prot⟩) } := by
  unfold Server.process_payload_from
  rw [hfind]
  simp only [if_neg hcap]
  rw [hfind2, hproto]

theorem ppf_malformed {σ : Type} (ops : ProtocolOps σ) (s : Server σ) (p : Payload)
    (a : SockAddr)
    (hfind : (s.clients.find? fun kc => kc.2.addr == a) = none)
    (hcap : ¬s.clients.length ≥ s.config.max_clients)
    (hfind2 : (s.connecting.find? fun kh => kh.2.addr == a) = none)
    (hproto : ops.fromPayload p = none) :
    Server.process_payload_from ops s p a = Except.error () := by
  unfold Server.process_payload_from
  rw [hfind]
  simp only [if_neg hcap]
  rw [hfind2, hproto]

theorem ppfs_of_ok {σ : Type} (ops : ProtocolOps σ) (s s' : Server σ) (p : Payload)
    (a : SockAddr) (h : Server.process_payload_from ops s p a = Except.ok s') :
    processPayloadFromState ops s p a = s' := by
  unfold processPayloadFromState
  rw [h]

theorem ppfs_of_error {σ : Type} (ops : ProtocolOps σ) (s : Server σ) (p : Payload)
    (a : SockAddr) (h : Server.process_payload_from ops s p a = Except.error ()) :
    processPayloadFromState ops s p a = s := by
  unfold processPayloadFromState
  rw [h]

@[simp] theorem keysOf_append {α : Type} (l1 l2 : List (Nat × α)) :
    keysOf (l1 ++ l2) = keysOf l1 ++ keysOf l2 := by
  simp [keysOf]

theorem keysOf_map_new_channel (t : Nat) (l : List (Nat × ChannelConfig)) :
    keysOf (l.map fun kc => (kc.1, kc.2.new_channel t)) = keysOf l := by
  induction l with
  | nil => simp
  | cons kc rest ih => simp [ih]

theorem drainLoop_nil {σ : Type} (ops : ProtocolOps σ) (s : Server σ) :
    drainLoop ops s [] = (s, true) := rfl

theorem drainLoop_dgram {σ : Type} (ops : ProtocolOps σ) (s : Server σ) (p : Payload)
    (a : SockAddr) (rest : List SocketInput) :
    drainLoop ops s (SocketInput.dgram p a :: rest) =
      drainLoop ops (processPayloadFromState ops s (p.take s.config.max_payload_size) a) rest :=
  rfl

theorem drainLoop_wouldBlock {σ : Type} (ops : ProtocolOps σ) (s : Server σ)
    (rest : List SocketInput) :
    drainLoop ops s (SocketInput.wouldBlock :: rest) = (s, true) := rfl

theorem drainLoop_ioFailure {σ : Type} (ops : ProtocolOps σ) (s : Server σ)
    (rest : List SocketInput) :
    drainLoop ops s (SocketInput.ioFailure :: rest) = (s, false) := rfl

theorem promoteOne_missing {σ : Type} (ops : ProtocolOps σ) (s : Server σ) (cid : ClientId)
    (h : lookupA s.connecting cid = none) : promoteOne ops s cid = s := by
  unfold promoteOne
  rw [h]

theorem promoteOne_full {σ : Type} (ops : ProtocolOps σ) (s : Server σ) (cid : ClientId)
    (hc : HandleConnection σ) (h : lookupA s.connecting cid = some hc)
    (hcap : s.clients.length ≥ s.config.max_clients) :
    promoteOne ops s cid = { s with connecting := removeA s.connecting cid } := by
  unfold promoteOne
  rw [h]
  simp only [if_pos hcap]

theorem promoteOne_promote {σ : Type} (ops : ProtocolOps σ) (s : Server σ) (cid : ClientId)
    (hc : HandleConnection σ) (h : lookupA s.connecting cid = some hc)
    (hcap : ¬s.clients.length ≥ s.config.max_clients) :
    promoteOne ops s cid =
      { s with
        connecting := removeA s.connecting cid,
        events := s.events ++ [Event.clientConnected hc.client_id],
        clients := insertA s.clients hc.client_id (freshSession ops s hc) } := by
  unfold promoteOne
  rw [h]
  simp only [if_neg hcap]
  rfl

theorem inv_of_clients_change {σ : Type} {config : ServerConfig}
    {ccfg : List (Nat × ChannelConfig)} {t0 : Nat} {s : Server σ}
    (hinv : Inv config ccfg t0 s) (cl : List (ClientId × Connection))
    (hkeys : keysOf cl = keysOf s.clients)
    (hmem : ∀ kc ∈ cl, keysOf kc.2.channels = keysOf ccfg) :
    Inv config ccfg t0 { s with clients := cl } := by
  have hlen : cl.length = s.clients.length := by
    have := congrArg List.length hkeys
    simpa [keysOf] using this
  exact {
    config_eq := hinv.config_eq
    ccfg_eq := hinv.ccfg_eq
    ccfg_nodup := hinv.ccfg_nodup
    time_eq := hinv.time_eq
    cap := by rw [hlen]; exact hinv.cap
    nodup_clients := by rw [hkeys]; exact hinv.nodup_clients
    nodup_connecting := hinv.nodup_connecting
    key_eq_id := hinv.key_eq_id
    chan_keys := hmem }

theorem inv_of_clients_sent_change {σ : Type} {config : ServerConfig}
    {ccfg : List (Nat × ChannelConfig)} {t0 : Nat} {s : Server σ}
    (hinv : Inv config ccfg t0 s) (cl : List (ClientId × Connection))
    (out : List (SockAddr × Payload))
    (hkeys : keysOf cl = keysOf s.clients)
    (hmem : ∀ kc ∈ cl, keysOf kc.2.channels = keysOf ccfg) :
    Inv config ccfg t0 { s with clients := cl, sent := out } := by
  have hlen : cl.length = s.clients.length := by
    have := congrArg List.length hkeys
    simpa [keysOf] using this
  exact {
    config_eq := hinv.config_eq
    ccfg_eq := hinv.ccfg_eq
    ccfg_nodup := hinv.ccfg_nodup
    time_eq := hinv.time_eq
    cap := by rw [show ({ s with clients := cl, sent := out } : Server σ).clients = cl from rfl, hlen]; exact hinv.cap
    nodup_clients := by rw [show keysOf ({ s with clients := cl, sent := out } : Server σ).clients = keysOf cl from rfl, hkeys]; exact hinv.nodup_clients
    nodup_connecting := hinv.nodup_connecting
    key_eq_id := hinv.key_eq_id
    chan_keys := hmem }

theorem inv_of_connecting_change {σ : Type} {config : ServerConfig}
    {ccfg : List (Nat × ChannelConfig)} {t0 : Nat} {s : Server σ}
    (hinv : Inv config ccfg t0 s) (cn : List (ClientId × HandleConnection σ))
    (hnodup : (keysOf cn).Nodup)
    (hmem : ∀ kh ∈ cn, kh.2.client_id = kh.1) :
    Inv config ccfg t0 { s with connecting := cn } :=
  { config_eq := hinv.config_eq
    ccfg_eq := hinv.ccfg_eq
    ccfg_nodup := hinv.ccfg_nodup
    time_eq := hinv.time_eq
    cap := hinv.cap
    nodup_clients := hinv.nodup_clients
    nodup_connecting := hnodup
    key_eq_id := hmem
    chan_keys := hinv.chan_keys }

theorem inv_of_sent_change {σ : Type} {config : ServerConfig}
    {ccfg : List (Nat × ChannelConfig)} {t0 : Nat} {s : Server σ}
    (hinv : Inv config ccfg t0 s) (out : List (SockAddr × Payload)) :
    Inv config ccfg t0 { s with sent := out } :=
  { config_eq := hinv.config_eq
    ccfg_eq := hinv.ccfg_eq
    ccfg_nodup := hinv.ccfg_nodup
    time_eq := hinv.time_eq
    cap := hinv.cap
    nodup_clients := hinv.nodup_clients
    nodup_connecting := hinv.nodup_connecting
    key_eq_id := hinv.key_eq_id
    chan_keys := hinv.chan_keys }

theorem inv_of_events_change {σ : Type} {config : ServerConfig}
    {ccfg : List (Nat × ChannelConfig)} {t0 : Nat} {s : Server σ}
    (hinv : Inv config ccfg t0 s) (evs : List Event) :
    Inv config ccfg t0 { s with events := evs } :=
  { config_eq := hinv.config_eq
    ccfg_eq := hinv.ccfg_eq
    ccfg_nodup := hinv.ccfg_nodup
    time_eq := hinv.time_eq
    cap := hinv.cap
    nodup_clients := hinv.nodup_clients
    nodup_connecting := hinv.nodup_connecting
    key_eq_id := hinv.key_eq_id
    chan_keys := hinv.chan_keys }

theorem channels_foldl_add_eq (t : Nat) (l : List (Nat × ChannelConfig)) :
    ∀ (c0 : Connection), (keysOf c0.channels ++ keysOf l).Nodup →
    (l.foldl (fun c kc => c.add_channel kc.1 (kc.2.new_channel t)) c0).channels
      = c0.channels ++ l.map (fun kc => (kc.1, kc.2.new_channel t)) := by
  induction l with
  | nil => intro c0 h; simp
  | cons kc rest ih =>
    intro c0 h
    have hk : kc.1 ∉ keysOf c0.channels := by
      intro hmem
      rw [List.nodup_append] at h
      exact h.2.2 hmem (by simp)
    have hstep : (c0.add_channel kc.1 (kc.2.new_channel t)).channels
        = c0.channels ++ [(kc.1, kc.2.new_channel t)] := by
      simp only [Connection.add_channel]
      exact insertA_eq_append_of_not_mem _ _ _ hk
    rw [List.foldl_cons, ih (c0.add_channel kc.1 (kc.2.new_channel t)) ?_, hstep]
    · simp
    · rw [hstep, keysOf_append]
      rw [show keysOf [(kc.1, kc.2.new_channel t)] = [kc.1] from rfl]
      rw [← List.append_cons]
      simpa using h

theorem freshSession_channels {σ : Type} (ops : ProtocolOps σ) (s : Server σ)
    (hc : HandleConnection σ) (hnodup : (keysOf s.channels_config).Nodup) :
    (freshSession ops s hc).channels
      = s.channels_config.map (fun kc => (kc.1, kc.2.new_channel s.current_time)) := by
  unfold freshSession
  rw [channels_foldl_add_eq _ _ _ (by simpa [Connection.new] using hnodup)]
  simp [Connection.new]

theorem inv_ppfs {σ : Type} (ops : ProtocolOps σ) {config : ServerConfig}
    {ccfg : List (Nat × ChannelConfig)} {t0 : Nat} {s : Server σ}
    (p : Payload) (a : SockAddr) (hinv : Inv config ccfg t0 s) :
    Inv config ccfg t0 (processPayloadFromState ops s p a) := by
  cases hfind : s.clients.find? fun kc => kc.2.addr == a with
  | some kc0 =>
      rw [ppfs_of_ok ops s _ p a (ppf_fast ops s p a kc0 hfind)]
      apply inv_of_clients_change hinv
      · exact keysOf_updFirst _ _ _
      · intro kc hkc
        rcases mem_updFirst _ _ _ _ hkc with hmem | ⟨y, hy, rfl⟩
        · exact hinv.chan_keys kc hmem
        · exact hinv.chan_keys y hy
  | none =>
      by_cases hcap : s.clients.length ≥ s.config.max_clients
      · rw [ppfs_of_ok ops s s p a (ppf_full ops s p a hfind hcap)]
        exact hinv
      · cases hfind2 : s.connecting.find? fun kh => kh.2.addr == a with
        | some kh0 =>
            rw [ppfs_of_ok ops s _ p a (ppf_pending ops s p a kh0 hfind hcap hfind2)]
            apply inv_of_connecting_change hinv
            · rw [keysOf_updFirst]
              exact hinv.nodup_connecting
            · intro kh hkh
              rcases mem_updFirst _ _ _ _ hkh with hmem | ⟨y, hy, rfl⟩
              · exact hinv.key_eq_id kh hmem
              · have := hinv.key_eq_id y hy
                simpa [client_id_handle_process] using this
        | none =>
            cases hproto : ops.fromPayload p with
            | none =>
                rw [ppfs_of_error ops s p a (ppf_malformed ops s p a hfind hcap hfind2 hproto)]
                exact hinv
            | some prot =>
                rw [ppfs_of_ok ops s _ p a (ppf_first ops s p a prot hfind hcap hfind2 hproto)]
                apply inv_of_connecting_change hinv
                · exact nodup_keysOf_insertA _ _ _ hinv.nodup_connecting
                · intro kh hkh
                  rcases mem_insertA _ _ _ _ hkh with hmem | rfl
                  · exact hinv.key_eq_id kh hmem
                  · rfl

theorem inv_clockUpdate {σ : Type} {config : ServerConfig}
    {ccfg : List (Nat × ChannelConfig)} {t0 : Nat} {s : Server σ} (now : Nat)
    (hinv : Inv config ccfg t0 s) : Inv config ccfg t0 (clockUpdate s now) := by
  apply inv_of_clients_change hinv
  · exact keysOf_mapVals _ _
  · intro kc hkc
    obtain ⟨y, hy, rfl⟩ := mem_mapVals _ _ _ hkc
    calc keysOf (y.2.update_channels_current_time now).channels
        = keysOf y.2.channels := channels_keys_update_time _ _
      _ = keysOf ccfg := hinv.chan_keys y hy

theorem inv_drainLoop {σ : Type} (ops : ProtocolOps σ) {config : ServerConfig}
    {ccfg : List (Nat × ChannelConfig)} {t0 : Nat} (trace : List SocketInput) :
    ∀ (s : Server σ), Inv config ccfg t0 s → Inv config ccfg t0 (drainLoop ops s trace).1 := by
  induction trace with
  | nil => intro s h; exact h
  | cons x rest ih =>
    intro s h
    cases x with
    | dgram p a =>
        rw [drainLoop_dgram]
        exact ih _ (inv_ppfs ops _ _ h)
    | wouldBlock => exact h
    | ioFailure => exact h

theorem inv_promoteOne {σ : Type} (ops : ProtocolOps σ) {config : ServerConfig}
    {ccfg : List (Nat × ChannelConfig)} {t0 : Nat} {s : Server σ} (cid : ClientId)
    (hinv : Inv config ccfg t0 s) : Inv config ccfg t0 (promoteOne ops s cid) := by
  cases hc : lookupA s.connecting cid with
  | none =>
      rw [promoteOne_missing ops s cid hc]
      exact hinv
  | some h =>
      by_cases hcap : s.clients.length ≥ s.config.max_clients
      · rw [promoteOne_full ops s cid h hc hcap]
        exact inv_of_connecting_change hinv _
          (nodup_keysOf_removeA _ _ hinv.nodup_connecting)
          (fun kh hkh => hinv.key_eq_id kh (mem_removeA _ _ _ hkh))
      · rw [promoteOne_promote ops s cid h hc hcap]
        have hccfgkeys : keysOf s.channels_config = keysOf ccfg := by rw [hinv.ccfg_eq]
        have hfresh : keysOf (freshSession ops s h).channels = keysOf ccfg := by
          rw [freshSession_channels ops s h (by rw [hccfgkeys]; exact hinv.ccfg_nodup)]
          rw [keysOf_map_new_channel, hccfgkeys]
        exact {
          config_eq := hinv.config_eq
          ccfg_eq := hinv.ccfg_eq
          ccfg_nodup := hinv.ccfg_nodup
          time_eq := hinv.time_eq
          cap := by
            by_cases hmem : h.client_id ∈ keysOf s.clients
            · rw [length_insertA_of_mem _ _ _ hmem]
              exact hinv.cap
            · rw [length_insertA_of_not_mem _ _ _ hmem]
              have hlt : s.clients.length < s.config.max_clients := Nat.lt_of_not_le hcap
              have : s.config.max_clients = config.max_clients := by rw [hinv.config_eq]
              omega
          nodup_clients := nodup_keysOf_insertA _ _ _ hinv.nodup_clients
          nodup_connecting := nodup_keysOf_removeA _ _ hinv.nodup_connecting
          key_eq_id := fun kh hkh => hinv.key_eq_id kh (mem_removeA _ _ _ hkh)
          chan_keys := by
            intro kc hkc
            rcases mem_insertA _ _ _ _ hkc with hmem | rfl
            · exact hinv.chan_keys kc hmem
            · exact hfresh }

theorem inv_promoteFold {σ : Type} (ops : ProtocolOps σ) {config : ServerConfig}
    {ccfg : List (Nat × ChannelConfig)} {t0 : Nat} (ids : List ClientId) :
    ∀ (s : Server σ), Inv config ccfg t0 s →
      Inv config ccfg t0 (ids.foldl (fun acc cid => promoteOne ops acc cid) s) := by
  induction ids with
  | nil => intro s h; exact h
  | cons cid rest ih =>
    intro s h
    rw [List.foldl_cons]
    exact ih _ (inv_promoteOne ops cid h)

theorem inv_upc {σ : Type} (ops : ProtocolOps σ) {config : ServerConfig}
    {ccfg : List (Nat × ChannelConfig)} {t0 : Nat} {s : Server σ}
    (hinv : Inv config ccfg t0 s) :
    Inv config ccfg t0 (Server.update_pending_connections ops s) := by
  unfold Server.update_pending_connections
  exact inv_promoteFold ops _ _ (inv_of_sent_change hinv _)

theorem inv_update {σ : Type} (ops : ProtocolOps σ) {config : ServerConfig}
    {ccfg : List (Nat × ChannelConfig)} {t0 : Nat} {s : Server σ} (now : Nat)
    (trace : List SocketInput) (hinv : Inv config ccfg t0 s) :
    Inv config ccfg t0 (Server.update ops s now trace) := by
  unfold Server.update Server.process_events
  exact inv_upc ops (inv_drainLoop ops trace _ (inv_clockUpdate now hinv))

theorem inv_sendPackets {σ : Type} {config : ServerConfig}
    {ccfg : List (Nat × ChannelConfig)} {t0 : Nat} {s : Server σ}
    (hinv : Inv config ccfg t0 s) : Inv config ccfg t0 (Server.send_packets s) := by
  unfold Server.send_packets
  apply inv_of_clients_sent_change hinv
  · exact keysOf_mapVals _ _
  · intro kc hkc
    obtain ⟨y, hy, rfl⟩ := mem_mapVals _ _ _ hkc
    calc keysOf (y.2.get_packet).2.channels
        = keysOf y.2.channels := by rw [channels_get_packet]
      _ = keysOf ccfg := hinv.chan_keys y hy

theorem send_message_to_client_absent {σ : Type} (s : Server σ) (cid : ClientId)
    (ch : Nat) (m : Payload) (h : lookupA s.clients cid = none) :
    s.send_message_to_client cid ch m = s := by
  unfold Server.send_message_to_client
  rw [h]

theorem send_message_to_client_present {σ : Type} (s : Server σ) (cid : ClientId)
    (ch : Nat) (m : Payload) (c : Connection) (h : lookupA s.clients cid = some c) :
    s.send_message_to_client cid ch m =
      { s with clients := updateA s.clients cid fun c => c.send_message ch m } := by
  unfold Server.send_message_to_client
  rw [h]

theorem get_messages_from_client_absent {σ : Type} (s : Server σ) (cid : ClientId)
    (ch : Nat) (h : lookupA s.clients cid = none) :
    s.get_messages_from_client cid ch = (none, s) := by
  unfold Server.get_messages_from_client
  rw [h]

theorem get_messages_from_client_present {σ : Type} (s : Server σ) (cid : ClientId)
    (ch : Nat) (c : Connection) (h : lookupA s.clients cid = some c) :
    s.get_messages_from_client cid ch =
      (some (c.receive_all_messages_from_channel ch).1,
        { s with clients := (updateA s.clients cid
            fun c => (c.receive_all_messages_from_channel ch).2) }) := by
  unfold Server.get_messages_from_client
  rw [h]

theorem get_messages_from_channel_state {σ : Type} (s : Server σ) (ch : Nat) :
    (s.get_messages_from_channel ch).2 =
      { s with clients := mapVals (fun c => (c.receive_all_messages_from_channel ch).2) s.clients } :=
  rfl

theorem get_event_state {σ : Type} (s : Server σ) :
    (s.get_event).2 = { s with events := s.events.dropLast } := rfl

theorem get_client_network_info_state {σ : Type} (s : Server σ) (cid : ClientId) :
    (s.get_client_network_info cid).2 = s := rfl

theorem inv_step {σ : Type} {ops : ProtocolOps σ} {config : ServerConfig}
    {ccfg : List (Nat × ChannelConfig)} {t0 : Nat} {s s' : Server σ}
    (hinv : Inv config ccfg t0 s) (hstep : Step ops s s') : Inv config ccfg t0 s' := by
  cases hstep with
  | processPayload p a => exact inv_ppfs ops p a hinv
  | update now trace => exact inv_update ops now trace hinv
  | sendPackets => exact inv_sendPackets hinv
  | getEvent =>
      rw [get_event_state]
      exact inv_of_events_change hinv _
  | getClientNetworkInfo cid =>
      rw [get_client_network_info_state]
      exact hinv
  | sendMessageToClient cid ch m =>
      cases hl : lookupA s.clients cid with
      | none =>
          rw [send_message_to_client_absent s cid ch m hl]
          exact hinv
      | some c =>
          rw [send_message_to_client_present s cid ch m c hl]
          apply inv_of_clients_change hinv
          · exact keysOf_updateA _ _ _
          · intro kc hkc
            rcases mem_updateA _ _ _ _ hkc with ⟨y, hy, h1 | h1⟩
            · rw [h1]
              exact hinv.chan_keys y hy
            · rw [h1]
              calc keysOf (y.2.send_message ch m).channels
                  = keysOf y.2.channels := channels_keys_send_message _ _ _
                _ = keysOf ccfg := hinv.chan_keys y hy
  | sendMessageToAllClients ch m =>
      unfold Server.send_message_to_all_clients
      apply inv_of_clients_change hinv
      · exact keysOf_mapVals _ _
      · intro kc hkc
        obtain ⟨y, hy, rfl⟩ := mem_mapVals _ _ _ hkc
        calc keysOf (y.2.send_message ch m).channels
            = keysOf y.2.channels := channels_keys_send_message _ _ _
          _ = keysOf ccfg := hinv.chan_keys y hy
  | getMessagesFromClient cid ch =>
      cases hl : lookupA s.clients cid with
      | none =>
          rw [get_messages_from_client_absent s cid ch hl]
          exact hinv
      | some c =>
          rw [get_messages_from_client_present s cid ch c hl]
          apply inv_of_clients_change hinv
          · exact keysOf_updateA _ _ _
          · intro kc hkc
            rcases mem_updateA _ _ _ _ hkc with ⟨y, hy, h1 | h1⟩
            · rw [h1]
              exact hinv.chan_keys y hy
            · rw [h1]
              calc keysOf (y.2.receive_all_messages_from_channel ch).2.channels
                  = keysOf y.2.channels := channels_keys_receive_all _ _
                _ = keysOf ccfg := hinv.chan_keys y hy
  | getMessagesFromChannel ch =>
      rw [get_messages_from_channel_state]
      apply inv_of_clients_change hinv
      · exact keysOf_mapVals _ _
      · intro kc hkc
        obtain ⟨y, hy, rfl⟩ := mem_mapVals _ _ _ hkc
        calc keysOf (y.2.receive_all_messages_from_channel ch).2.channels
            = keysOf y.2.channels := channels_keys_receive_all _ _
          _ = keysOf ccfg := hinv.chan_keys y hy

theorem inv_init {σ : Type} (config : ServerConfig) (ecfg : EndpointConfig)
    (ccfg : List (Nat × ChannelConfig)) (t0 : Nat) (hccfg : (keysOf ccfg).Nodup) :
    Inv config ccfg t0 (Server.new (σ := σ) config ecfg ccfg t0) :=
  { config_eq := rfl
    ccfg_eq := rfl
    ccfg_nodup := hccfg
    time_eq := rfl
    cap := by simp [Server.new]
    nodup_clients := by simp [Server.new, keysOf]
    nodup_connecting := by simp [Server.new, keysOf]
    key_eq_id := by simp [Server.new]
    chan_keys := by simp [Server.new] }

theorem inv_reachable {σ : Type} {ops : ProtocolOps σ} {config : ServerConfig}
    {ecfg : EndpointConfig} {ccfg : List (Nat × ChannelConfig)} {t0 : Nat} {s : Server σ}
    (hr : Reachable ops config ecfg ccfg t0 s) (hccfg : (keysOf ccfg).Nodup) :
    Inv config ccfg t0 s := by
  induction hr with
  | init => exact inv_init config ecfg ccfg t0 hccfg
  | step _ hstep ih => exact inv_step ih hstep

theorem lookupA_removeA_of_none {α : Type} (l : List (Nat × α)) (k x : Nat)
    (h : lookupA l x = none) : lookupA (removeA l k) x = none := by
  by_cases hx : x = k
  · rw [hx]
    exact lookupA_removeA_self _ _
  · rw [lookupA_removeA_ne _ _ _ hx]
    exact h

theorem disjoint_of_same_keys {σ : Type} {s s' : Server σ}
    (hkeys : keysOf s'.clients = keysOf s.clients)
    (hconn : s'.connecting = s.connecting)
    (hd : IdsDisjoint s) : IdsDisjoint s' := by
  intro cid hsome
  rw [hconn]
  apply hd
  rw [lookupA_isSome_iff_mem_keysOf] at hsome ⊢
  rwa [hkeys] at hsome

theorem ppfs_clients_keys {σ : Type} (ops : ProtocolOps σ) (s : Server σ) (p : Payload)
    (a : SockAddr) : keysOf (processPayloadFromState ops s p a).clients = keysOf s.clients := by
  cases hfind : s.clients.find? fun kc => kc.2.addr == a with
  | some kc0 =>
      rw [ppfs_of_ok ops s _ p a (ppf_fast ops s p a kc0 hfind)]
      exact keysOf_updFirst _ _ _
  | none =>
      by_cases hcap : s.clients.length ≥ s.config.max_clients
      · rw [ppfs_of_ok ops s s p a (ppf_full ops s p a hfind hcap)]
      · cases hfind2 : s.connecting.find? fun kh => kh.2.addr == a with
        | some kh0 =>
            rw [ppfs_of_ok ops s _ p a (ppf_pending ops s p a kh0 hfind hcap hfind2)]
        | none =>
            cases hproto : ops.fromPayload p with
            | none =>
                rw [ppfs_of_error ops s p a (ppf_malformed ops s p a hfind hcap hfind2 hproto)]
            | some prot =>
                rw [ppfs_of_ok ops s _ p a (ppf_first ops s p a prot hfind hcap hfind2 hproto)]

theorem disjoint_ppfs {σ : Type} (ops : ProtocolOps σ) {s : Server σ} (p : Payload)
    (a : SockAddr) (hd : IdsDisjoint s) (hnc : NoCollide ops s p a) :
    IdsDisjoint (processPayloadFromState ops s p a) := by
  cases hfind : s.clients.find? fun kc => kc.2.addr == a with
  | some kc0 =>
      rw [ppfs_of_ok ops s _ p a (ppf_fast ops s p a kc0 hfind)]
      exact disjoint_of_same_keys (keysOf_updFirst _ _ _) rfl hd
  | none =>
      by_cases hcap : s.clients.length ≥ s.config.max_clients
      · rw [ppfs_of_ok ops s s p a (ppf_full ops s p a hfind hcap)]
        exact hd
      · cases hfind2 : s.connecting.find? fun kh => kh.2.addr == a with
        | some kh0 =>
            rw [ppfs_of_ok ops s _ p a (ppf_pending ops s p a kh0 hfind hcap hfind2)]
            intro cid hsome
            rw [show ({ s with connecting := (updFirst (fun kh => kh.2.addr == a)
              (fun kh => (kh.1, kh.2.process_payload ops p)) s.connecting) } : Server σ).clients
              = s.clients from rfl] at hsome
            have hnone := hd cid hsome
            rw [lookupA_eq_none_iff_not_mem] at hnone ⊢
            rwa [show keysOf ({ s with connecting := (updFirst (fun kh => kh.2.addr == a)
              (fun kh => (kh.1, kh.2.process_payload ops p)) s.connecting) } : Server σ).connecting
              = keysOf s.connecting from keysOf_updFirst _ _ _]
        | none =>
            cases hproto : ops.fromPayload p with
            | none =>
                rw [ppfs_of_error ops s p a (ppf_malformed ops s p a hfind hcap hfind2 hproto)]
                exact hd
            | some prot =>
                rw [ppfs_of_ok ops s _ p a (ppf_first ops s p a prot hfind hcap hfind2 hproto)]
                intro cid hsome
                have hfresh : lookupA s.clients (ops.protId prot) = none :=
                  hnc prot hfind (Nat.lt_of_not_le hcap) hfind2 hproto
                by_cases hcid : cid = ops.protId prot
                · rw [hcid] at hsome
                  rw [hfresh] at hsome
                  simp at hsome
                · rw [show ({ s with connecting := (insertA s.connecting (ops.protId prot)
                    ⟨ops.protId prot, a, prot⟩) } : Server σ).connecting
                    = insertA s.connecting (ops.protId prot) ⟨ops.protId prot, a, prot⟩ from rfl]
                  rw [lookupA_insertA_ne _ _ _ _ hcid]
                  exact hd cid hsome

theorem disjoint_drainLoop {σ : Type} (ops : ProtocolOps σ) (trace : List SocketInput) :
    ∀ (s : Server σ), IdsDisjoint s → TraceNoCollide ops s trace →
      IdsDisjoint (drainLoop ops s trace).1 := by
  induction trace with
  | nil => intro s hd _; exact hd
  | cons x rest ih =>
    intro s hd htr
    cases x with
    | dgram p a =>
        rw [drainLoop_dgram]
        obtain ⟨hnc, htr'⟩ := htr
        exact ih _ (disjoint_ppfs ops _ _ hd hnc) htr'
    | wouldBlock => exact hd
    | ioFailure => exact hd

theorem key_of_lookup_connecting {σ : Type} {config : ServerConfig}
    {ccfg : List (Nat × ChannelConfig)} {t0 : Nat} {s : Server σ}
    (hinv : Inv config ccfg t0 s) {cid : ClientId} {hc : HandleConnection σ}
    (h : lookupA s.connecting cid = some hc) : hc.client_id = cid :=
  hinv.key_eq_id (cid, hc) (lookupA_mem _ _ _ h)

theorem disjoint_promoteOne {σ : Type} (ops : ProtocolOps σ) {config : ServerConfig}
    {ccfg : List (Nat × ChannelConfig)} {t0 : Nat} {s : Server σ} (cid : ClientId)
    (hinv : Inv config ccfg t0 s) (hd : IdsDisjoint s) :
    IdsDisjoint (promoteOne ops s cid) := by
  cases hc : lookupA s.connecting cid with
  | none =>
      rw [promoteOne_missing ops s cid hc]
      exact hd
  | some h =>
      have hid : h.client_id = cid := key_of_lookup_connecting hinv hc
      by_cases hcap : s.clients.length ≥ s.config.max_clients
      · rw [promoteOne_full ops s cid h hc hcap]
        intro x hsome
        exact lookupA_removeA_of_none _ _ _ (hd x hsome)
      · rw [promoteOne_promote ops s cid h hc hcap]
        intro x hsome
        by_cases hx : x = cid
        · rw [hx]
          exact lookupA_removeA_self _ _
        · rw [show ({ s with
              connecting := removeA s.connecting cid,
              events := s.events ++ [Event.clientConnected h.client_id],
              clients := insertA s.clients h.client_id (freshSession ops s h) } : Server σ).clients
              = insertA s.clients h.client_id (freshSession ops s h) from rfl] at hsome
          rw [lookupA_insertA_ne _ _ _ _ (by rw [hid]; exact hx)] at hsome
          exact lookupA_removeA_of_none _ _ _ (hd x hsome)

theorem disjoint_promoteFold {σ : Type} (ops : ProtocolOps σ) {config : ServerConfig}
    {ccfg : List (Nat × ChannelConfig)} {t0 : Nat} (ids : List ClientId) :
    ∀ (s : Server σ), Inv config ccfg t0 s → IdsDisjoint s →
      IdsDisjoint (ids.foldl (fun acc cid => promoteOne ops acc cid) s) := by
  induction ids with
  | nil => intro s _ hd; exact hd
  | cons cid rest ih =>
    intro s hinv hd
    rw [List.foldl_cons]
    exact ih _ (inv_promoteOne ops cid hinv) (disjoint_promoteOne ops cid hinv hd)

theorem disjoint_upc {σ : Type} (ops : ProtocolOps σ) {config : ServerConfig}
    {ccfg : List (Nat × ChannelConfig)} {t0 : Nat} {s : Server σ}
    (hinv : Inv config ccfg t0 s) (hd : IdsDisjoint s) :
    IdsDisjoint (Server.update_pending_connections ops s) := by
  unfold Server.update_pending_connections
  apply disjoint_promoteFold ops _ _ (inv_of_sent_change hinv _)
  exact disjoint_of_same_keys rfl rfl hd

theorem disjoint_stepNC {σ : Type} {ops : ProtocolOps σ} {config : ServerConfig}
    {ccfg : List (Nat × ChannelConfig)} {t0 : Nat} {s s' : Server σ}
    (hinv : Inv config ccfg t0 s) (hd : IdsDisjoint s) (hstep : StepNC ops s s') :
    IdsDisjoint s' := by
  cases hstep with
  | processPayload p a hnc => exact disjoint_ppfs ops p a hd hnc
  | update now trace htr =>
      unfold Server.update Server.process_events
      have hd1 : IdsDisjoint (clockUpdate s now) :=
        disjoint_of_same_keys (keysOf_mapVals _ _) rfl hd
      exact disjoint_upc ops
        (inv_drainLoop ops trace _ (inv_clockUpdate now hinv))
        (disjoint_drainLoop ops trace _ hd1 htr)
  | sendPackets =>
      unfold Server.send_packets
      exact disjoint_of_same_keys (keysOf_mapVals _ _) rfl hd
  | getEvent =>
      rw [get_event_state]
      exact disjoint_of_same_keys rfl rfl hd
  | getClientNetworkInfo cid =>
      rw [get_client_network_info_state]
      exact hd
  | sendMessageToClient cid ch m =>
      cases hl : lookupA s.clients cid with
      | none =>
          rw [send_message_to_client_absent s cid ch m hl]
          exact hd
      | some c =>
          rw [send_message_to_client_present s cid ch m c hl]
          exact disjoint_of_same_keys (keysOf_updateA _ _ _) rfl hd
  | sendMessageToAllClients ch m =>
      unfold Server.send_message_to_all_clients
      exact disjoint_of_same_keys (keysOf_mapVals _ _) rfl hd
  | getMessagesFromClient cid ch =>
      cases hl : lookupA s.clients cid with
      | none =>
          rw [get_messages_from_client_absent s cid ch hl]
          exact hd
      | some c =>
          rw [get_messages_from_client_present s cid ch c hl]
          exact disjoint_of_same_keys (keysOf_updateA _ _ _) rfl hd
  | getMessagesFromChannel ch =>
      rw [get_messages_from_channel_state]
      exact disjoint_of_same_keys (keysOf_mapVals _ _) rfl hd

theorem stepNC_to_step {σ : Type} {ops : ProtocolOps σ} {s s' : Server σ}
    (h : StepNC ops s s') : Step ops s s' := by
  cases h with
  | processPayload p a hnc => exact Step.processPayload s p a
  | update now trace htr => exact Step.update s now trace
  | sendPackets => exact Step.sendPackets s
  | getEvent => exact Step.getEvent s
  | getClientNetworkInfo cid => exact Step.getClientNetworkInfo s cid
  | sendMessageToClient cid ch m => exact Step.sendMessageToClient s cid ch m
  | sendMessageToAllClients ch m => exact Step.sendMessageToAllClients s ch m
  | getMessagesFromClient cid ch => exact Step.getMessagesFromClient s cid ch
  | getMessagesFromChannel ch => exact Step.getMessagesFromChannel s ch

theorem runNC_disjoint {σ : Type} {ops : ProtocolOps σ} {config : ServerConfig}
    {ccfg : List (Nat × ChannelConfig)} {t0 : Nat} {s t : Server σ}
    (hrun : RunNC ops s t) (hinv : Inv config ccfg t0 s) (hd : IdsDisjoint s) :
    IdsDisjoint t := by
  induction hrun with
  | refl => exact hd
  | tail hrest hstep ih =>
      rename_i b c
      have hinvb : Inv config ccfg t0 b := by
        clear ih hstep
        induction hrest with
        | refl => exact hinv
        | tail _ hstep2 ih2 => exact inv_step ih2 (stepNC_to_step hstep2)
      exact disjoint_stepNC hinvb ih hstep

theorem mem_keysOf_insertA {α : Type} (l : List (Nat × α)) (k : Nat) (v : α)
    (cid : Nat) (h : cid ∈ keysOf l) : cid ∈ keysOf (insertA l k v) := by
  by_cases hk : k ∈ keysOf l
  · rwa [keysOf_insertA_of_mem _ _ _ hk]
  · rw [keysOf_insertA_of_not_mem _ _ _ hk]
    exact List.mem_append_left _ h

theorem promoteOne_clients_mem_mono {σ : Type} (ops : ProtocolOps σ) (s : Server σ)
    (pid : ClientId) (cid : ClientId) (h : cid ∈ keysOf s.clients) :
    cid ∈ keysOf (promoteOne ops s pid).clients := by
  cases hc : lookupA s.connecting pid with
  | none =>
      rw [promoteOne_missing ops s pid hc]
      exact h
  | some hco =>
      by_cases hcap : s.clients.length ≥ s.config.max_clients
      · rw [promoteOne_full ops s pid hco hc hcap]
        exact h
      · rw [promoteOne_promote ops s pid hco hc hcap]
        exact mem_keysOf_insertA _ _ _ _ h

theorem promoteFold_clients_mem_mono {σ : Type} (ops : ProtocolOps σ)
    (ids : List ClientId) :
    ∀ (s : Server σ) (cid : ClientId), cid ∈ keysOf s.clients →
      cid ∈ keysOf ((ids.foldl (fun acc i => promoteOne ops acc i) s)).clients := by
  induction ids with
  | nil => intro s cid h; exact h
  | cons i rest ih =>
    intro s cid h
    rw [List.foldl_cons]
    exact ih _ _ (promoteOne_clients_mem_mono ops s i cid h)

theorem drainLoop_clients_keys {σ : Type} (ops : ProtocolOps σ)
    (trace : List SocketInput) :
    ∀ (s : Server σ), keysOf (drainLoop ops s trace).1.clients = keysOf s.clients := by
  induction trace with
  | nil => intro s; rfl
  | cons x rest ih =>
    intro s
    cases x with
    | dgram p a =>
        rw [drainLoop_dgram, ih, ppfs_clients_keys]
    | wouldBlock => rfl
    | ioFailure => rfl

theorem upc_eq {σ : Type} (ops : ProtocolOps σ) (s : Server σ) :
    Server.update_pending_connections ops s =
      ((s.connecting.filter fun kh => ops.isAuthenticated kh.2.protocol).map
          fun kh => kh.2.client_id).foldl
        (fun acc cid => promoteOne ops acc cid)
        { s with sent := (s.sent ++
            (s.connecting.filter fun kh => !ops.isAuthenticated kh.2.protocol).filterMap
              fun kh => match ops.createPayload kh.2.protocol with
                | some (some p) => some (kh.2.addr, p)
                | _ => none) } := rfl

theorem step_clients_mem_mono {σ : Type} {ops : ProtocolOps σ} {s s' : Server σ}
    (hstep : Step ops s s') (cid : ClientId) (h : cid ∈ keysOf s.clients) :
    cid ∈ keysOf s'.clients := by
  cases hstep with
  | processPayload p a =>
      rwa [ppfs_clients_keys]
  | update now trace =>
      unfold Server.update Server.process_events
      rw [upc_eq]
      apply promoteFold_clients_mem_mono
      show cid ∈ keysOf (drainLoop ops (clockUpdate s now) trace).1.clients
      rw [drainLoop_clients_keys]
      show cid ∈ keysOf (mapVals (fun c => c.update_channels_current_time now) s.clients)
      rwa [keysOf_mapVals]
  | sendPackets =>
      show cid ∈ keysOf (mapVals (fun c => (c.get_packet).2) s.clients)
      rwa [keysOf_mapVals]
  | getEvent => exact h
  | getClientNetworkInfo cid2 => exact h
  | sendMessageToClient cid2 ch m =>
      cases hl : lookupA s.clients cid2 with
      | none =>
          rw [send_message_to_client_absent s cid2 ch m hl]
          exact h
      | some c =>
          rw [send_message_to_client_present s cid2 ch m c hl]
          show cid ∈ keysOf (updateA s.clients cid2 fun c => c.send_message ch m)
          rwa [keysOf_updateA]
  | sendMessageToAllClients ch m =>
      show cid ∈ keysOf (mapVals (fun c => c.send_message ch m) s.clients)
      rwa [keysOf_mapVals]
  | getMessagesFromClient cid2 ch =>
      cases hl : lookupA s.clients cid2 with
      | none =>
          rw [get_messages_from_client_absent s cid2 ch hl]
          exact h
      | some c =>
          rw [get_messages_from_client_present s cid2 ch c hl]
          show cid ∈ keysOf (updateA s.clients cid2
            fun c => (c.receive_all_messages_from_channel ch).2)
          rwa [keysOf_updateA]
  | getMessagesFromChannel ch =>
      show cid ∈ keysOf (mapVals
        (fun c => (c.receive_all_messages_from_channel ch).2) s.clients)
      rwa [keysOf_mapVals]

theorem runNC_clients_mem_mono {σ : Type} {ops : ProtocolOps σ} {s t : Server σ}
    (hrun : RunNC ops s t) (cid : ClientId) (h : cid ∈ keysOf s.clients) :
    cid ∈ keysOf t.clients := by
  induction hrun with
  | refl => exact h
  | tail _ hstep ih => exact step_clients_mem_mono (stepNC_to_step hstep) cid ih

theorem reach_demoS1 : Reachable demoOps demoConfig demoEcfg [] 0 demoS1 :=
  Reachable.step Reachable.init (Step.processPayload demoS0 [1] 10)

theorem reach_demoS2 : Reachable demoOps demoConfig demoEcfg [] 0 demoS2 :=
  Reachable.step reach_demoS1 (Step.update demoS1 5 [])

theorem reach_demoS3 : Reachable demoOps demoConfig demoEcfg [] 0 demoS3 :=
  Reachable.step reach_demoS2 (Step.processPayload demoS2 [1] 20)

theorem reach_chanS1 : Reachable demoOps demoConfig demoEcfg demoCcfg 0 chanS1 :=
  Reachable.step Reachable.init (Step.processPayload chanS0 [1] 10)

theorem reach_chanS2 : Reachable demoOps demoConfig demoEcfg demoCcfg 0 chanS2 :=
  Reachable.step reach_chanS1 (Step.update chanS1 5 [])

theorem disjoint_demoS1 : IdsDisjoint demoS1 := by
  intro cid hsome
  have hnone : lookupA demoS1.clients cid = none := rfl
  rw [hnone] at hsome
  simp at hsome

theorem drainLoop_split_ioFailure {σ : Type} (ops : ProtocolOps σ)
    (pre rest : List SocketInput) :
    ∀ (s : Server σ), (∀ x ∈ pre, x.isDgram = true) →
      drainLoop ops s (pre ++ SocketInput.ioFailure :: rest) = (procList ops s pre, false) := by
  induction pre with
  | nil => intro s _; rfl
  | cons x pre2 ih =>
    intro s hpre
    cases x with
    | dgram p a =>
        rw [List.cons_append, drainLoop_dgram]
        rw [show procList ops s (SocketInput.dgram p a :: pre2)
          = procList ops (processPayloadFromState ops s (p.take s.config.max_payload_size) a) pre2
          from rfl]
        exact ih _ (fun y hy => hpre y (List.mem_cons_of_mem _ hy))
    | wouldBlock =>
        have := hpre SocketInput.wouldBlock (List.mem_cons_self _ _)
        simp [SocketInput.isDgram] at this
    | ioFailure =>
        have := hpre SocketInput.ioFailure (List.mem_cons_self _ _)
        simp [SocketInput.isDgram] at this

theorem drainLoop_split_wouldBlock {σ : Type} (ops : ProtocolOps σ)
    (pre rest : List SocketInput) :
    ∀ (s : Server σ), (∀ x ∈ pre, x.isDgram = true) →
      drainLoop ops s (pre ++ SocketInput.wouldBlock :: rest) = (procList ops s pre, true) := by
  induction pre with
  | nil => intro s _; rfl
  | cons x pre2 ih =>
    intro s hpre
    cases x with
    | dgram p a =>
        rw [List.cons_append, drainLoop_dgram]
        rw [show procList ops s (SocketInput.dgram p a :: pre2)
          = procList ops (processPayloadFromState ops s (p.take s.config.max_payload_size) a) pre2
          from rfl]
        exact ih _ (fun y hy => hpre y (List.mem_cons_of_mem _ hy))
    | wouldBlock =>
        have := hpre SocketInput.wouldBlock (List.mem_cons_self _ _)
        simp [SocketInput.isDgram] at this
    | ioFailure =>
        have := hpre SocketInput.ioFailure (List.mem_cons_self _ _)
        simp [SocketInput.isDgram] at this

theorem promoteOne_current_time {σ : Type} (ops : ProtocolOps σ) (s : Server σ)
    (cid : ClientId) : (promoteOne ops s cid).current_time = s.current_time := by
  cases hc : lookupA s.connecting cid with
  | none => rw [promoteOne_missing ops s cid hc]
  | some h =>
      by_cases hcap : s.clients.length ≥ s.config.max_clients
      · rw [promoteOne_full ops s cid h hc hcap]
      · rw [promoteOne_promote ops s cid h hc hcap]

theorem foldl_add_channel_times (t : Nat) (l : List (Nat × ChannelConfig)) :
    ∀ (c0 : Connection), (∀ kch ∈ c0.channels, kch.2.time = t) →
      ∀ kch ∈ (l.foldl (fun c kc => c.add_channel kc.1 (kc.2.new_channel t)) c0).channels,
        kch.2.time = t := by
  induction l with
  | nil => intro c0 h0; exact h0
  | cons kc rest ih =>
    intro c0 h0
    rw [List.foldl_cons]
    apply ih
    intro kch hkch
    rcases mem_insertA _ _ _ _ hkch with hmem | rfl
    · exact h0 kch hmem
    · rfl

theorem freshSession_times {σ : Type} (ops : ProtocolOps σ) (s : Server σ)
    (hc : HandleConnection σ) :
    ∀ kch ∈ (freshSession ops s hc).channels, kch.2.time = s.current_time := by
  unfold freshSession
  apply foldl_add_channel_times
  intro kch hkch
  simp [Connection.new] at hkch

theorem promoteOne_new_client {σ : Type} (ops : ProtocolOps σ) (s : Server σ)
    (i cid : ClientId) (c : Connection)
    (h : lookupA (promoteOne ops s i).clients cid = some c) :
    lookupA s.clients cid = some c ∨ ∀ kch ∈ c.channels, kch.2.time = s.current_time := by
  cases hc : lookupA s.connecting i with
  | none =>
      rw [promoteOne_missing ops s i hc] at h
      left
      exact h
  | some hco =>
      by_cases hcap : s.clients.length ≥ s.config.max_clients
      · rw [promoteOne_full ops s i hco hc hcap] at h
        left
        exact h
      · rw [promoteOne_promote ops s i hco hc hcap] at h
        rw [show ({ s with
            connecting := removeA s.connecting i,
            events := s.events ++ [Event.clientConnected hco.client_id],
            clients := insertA s.clients hco.client_id (freshSession ops s hco) } : Server σ).clients
            = insertA s.clients hco.client_id (freshSession ops s hco) from rfl] at h
        by_cases hcid : cid = hco.client_id
        · right
          rw [hcid, lookupA_insertA_self] at h
          obtain rfl : freshSession ops s hco = c := by simpa using h
          exact freshSession_times ops s hco
        · left
          rwa [lookupA_insertA_ne _ _ _ _ hcid] at h

theorem promoteFold_new_client {σ : Type} (ops : ProtocolOps σ) (ids : List ClientId) :
    ∀ (s : Server σ) (cid : ClientId) (c : Connection),
      lookupA ((ids.foldl (fun acc i => promoteOne ops acc i) s)).clients cid = some c →
      lookupA s.clients cid = some c ∨ ∀ kch ∈ c.channels, kch.2.time = s.current_time := by
  induction ids with
  | nil =>
    intro s cid c h
    left
    exact h
  | cons i rest ih =>
    intro s cid c h
    rw [List.foldl_cons] at h
    rcases ih _ cid c h with h1 | h1
    · exact promoteOne_new_client ops s i cid c h1
    · right
      rwa [promoteOne_current_time] at h1

theorem get_event_eq {σ : Type} (s : Server σ) :
    s.get_event = (s.events.getLast?, { s with events := s.events.dropLast }) := rfl

theorem drainEventsAux_reverse {σ : Type} (n : Nat) :
    ∀ (s : Server σ), s.events.length ≤ n → drainEventsAux n s = s.events.reverse := by
  induction n with
  | zero =>
      intro s h
      have : s.events = [] := List.eq_nil_of_length_eq_zero (Nat.le_zero.mp h)
      rw [this]
      rfl
  | succ n ih =>
      intro s h
      cases hev : s.events using List.reverseRecOn with
      | nil =>
          unfold drainEventsAux
          rw [get_event_eq, hev]
          simp
      | append_singleton es e =>
          unfold drainEventsAux
          rw [get_event_eq, hev]
          simp only [List.getLast?_concat, List.dropLast_concat]
          rw [ih { s with events := es } (by
            show es.length ≤ n
            have := congrArg List.length hev
            simp at this
            omega)]
          simp

/-- C1: in every reachable orchestrator state the session map holds at most
`max_clients` entries (its keys are distinct, so the length is the entry
count); and a pending handshake whose protocol reports authenticated while
the session map already holds `max_clients` entries is discarded at its
promotion moment — the handshake entry is removed and nothing else changes:
no session is created and no event is enqueued. -/
theorem claim_C1_capacity_ceiling {σ : Type} (ops : ProtocolOps σ) (config : ServerConfig)
    (ecfg : EndpointConfig) (ccfg : List (Nat × ChannelConfig)) (t0 : Nat) :
    (∀ s : Server σ, Reachable ops config ecfg ccfg t0 s → (keysOf ccfg).Nodup →
      s.clients.length ≤ config.max_clients ∧ (keysOf s.clients).Nodup) ∧
    (∀ (s : Server σ) (cid : ClientId) (hc : HandleConnection σ),
      lookupA s.connecting cid = some hc →
      ops.isAuthenticated hc.protocol = true →
      s.clients.length = s.config.max_clients →
      promoteOne ops s cid = { s with connecting := removeA s.connecting cid }) := by
  constructor
  · intro s hr hccfg
    have hinv := inv_reachable hr hccfg
    exact ⟨hinv.cap, hinv.nodup_clients⟩
  · intro s cid hc hl _ hcap
    exact promoteOne_full ops s cid hc hl (by omega)

theorem claim_C1_capacity_ceiling_witness :
    (demoS2.clients.length ≤ demoConfig.max_clients ∧ (keysOf demoS2.clients).Nodup) ∧
    promoteOne demoOps demoFull 7 = { demoFull with connecting := removeA demoFull.connecting 7 } :=
  ⟨(claim_C1_capacity_ceiling demoOps demoConfig demoEcfg [] 0).1 demoS2 reach_demoS2 (by decide),
   (claim_C1_capacity_ceiling demoOps demoConfig demoEcfg [] 0).2 demoFull 7 ⟨7, 30, 7⟩
     (by decide) (by decide) (by decide)⟩

/-- C3: when some live session's address equals the source address,
`process_payload_from` returns `Ok` after handing the payload to the session
the address scan finds: exactly that one entry is replaced by its
`process_payload` image, and the state is otherwise untouched — the
pending-handshake map, the event queue and the session-map keys are those of
the input state, and no capacity check or handshake logic runs. -/
theorem claim_C3_session_fast_path {σ : Type} (ops : ProtocolOps σ) (s : Server σ)
    (p : Payload) (a : SockAddr) (kc0 : ClientId × Connection)
    (hfind : (s.clients.find? fun kc => kc.2.addr == a) = some kc0) :
    ∃ pre post,
      s.clients = pre ++ kc0 :: post ∧
      (∀ y ∈ pre, (y.2.addr == a) = false) ∧
      kc0.2.addr = a ∧
      Server.process_payload_from ops s p a =
        Except.ok { s with clients := pre ++ (kc0.1, kc0.2.process_payload p) :: post } := by
  obtain ⟨pre, post, hsplit, hpre, hq, hupd⟩ :=
    find?_updFirst_split (fun kc => kc.2.addr == a)
      (fun kc => (kc.1, kc.2.process_payload p)) s.clients kc0 hfind
  refine ⟨pre, post, hsplit, hpre, by simpa using hq, ?_⟩
  rw [ppf_fast ops s p a kc0 hfind, hupd]

theorem claim_C3_session_fast_path_witness :
    ∃ pre post,
      demoS2.clients = pre ++ (1, Connection.new 10 0) :: post ∧
      (∀ y ∈ pre, (y.2.addr == 10) = false) ∧
      (1, Connection.new 10 0).2.addr = 10 ∧
      Server.process_payload_from demoOps demoS2 [9] 10 =
        Except.ok { demoS2 with
          clients := pre ++ (1, (Connection.new 10 0).process_payload [9]) :: post } :=
  claim_C3_session_fast_path demoOps demoS2 [9] 10 (1, Connection.new 10 0) (by decide)

/-- C5: `get_event` removes and returns the most recently enqueued event —
one call pops the last element of the event queue, and repeatedly calling
`get_event` until it signals emptiness yields exactly the queued events in
reverse push order (and `none` once the queue is empty). -/
theorem claim_C5_event_order {σ : Type} (s : Server σ) :
    s.get_event = (s.events.getLast?, { s with events := s.events.dropLast }) ∧
    s.drain_events = s.events.reverse := by
  refine ⟨get_event_eq s, ?_⟩
  unfold Server.drain_events
  exact drainEventsAux_reverse _ s (Nat.le_refl _)

/-- C6: `send_message_to_client` for a client id absent from the session map
is a no-op: the entire orchestrator state is returned unchanged (and the
operation offers no error to return). -/
theorem claim_C6_unknown_send_noop {σ : Type} (s : Server σ) (cid : ClientId)
    (ch : Nat) (m : Payload) (h : lookupA s.clients cid = none) :
    s.send_message_to_client cid ch m = s :=
  send_message_to_client_absent s cid ch m h

theorem claim_C6_unknown_send_noop_witness :
    demoS2.send_message_to_client 9 3 [1, 2] = demoS2 :=
  claim_C6_unknown_send_noop demoS2 9 3 [1, 2] (by decide)

/-- C7: `get_messages_from_client` signals absence exactly for client ids
outside the session map; for a known session it returns `some` batch — the
drained inbound buffer of that session's channel — and in particular `some`
of the empty batch (not absence, not an error) when nothing is buffered. -/
theorem claim_C7_message_reads {σ : Type} (s : Server σ) (cid : ClientId) (ch : Nat) :
    ((s.get_messages_from_client cid ch).1 = none ↔ lookupA s.clients cid = none) ∧
    (∀ c, lookupA s.clients cid = some c →
      (s.get_messages_from_client cid ch).1
        = some (c.receive_all_messages_from_channel ch).1) ∧
    (∀ c chan, lookupA s.clients cid = some c → lookupA c.channels ch = some chan →
      (c.receive_all_messages_from_channel ch).1 = chan.inbound) ∧
    (∀ c chan, lookupA s.clients cid = some c → lookupA c.channels ch = some chan →
      chan.inbound = [] → (s.get_messages_from_client cid ch).1 = some []) := by
  have hrecv : ∀ (c : Connection) (chan : Channel), lookupA c.channels ch = some chan →
      (c.receive_all_messages_from_channel ch).1 = chan.inbound := by
    intro c chan hchan
    unfold Connection.receive_all_messages_from_channel
    rw [hchan]
  refine ⟨?_, ?_, ?_, ?_⟩
  · cases hl : lookupA s.clients cid with
    | none =>
        rw [get_messages_from_client_absent s cid ch hl]
        simp
    | some c =>
        rw [get_messages_from_client_present s cid ch c hl]
        simp
  · intro c hl
    rw [get_messages_from_client_present s cid ch c hl]
  · intro c chan _ hchan
    exact hrecv c chan hchan
  · intro c chan hl hchan hempty
    rw [get_messages_from_client_present s cid ch c hl]
    show some (c.receive_all_messages_from_channel ch).1 = some []
    rw [hrecv c chan hchan, hempty]

theorem claim_C7_message_reads_witness :
    (demoMsgServer.get_messages_from_client 1 3).1 = some [] ∧
    (demoMsgServer.get_messages_from_client 2 3).1 = none := by
  constructor
  · exact (claim_C7_message_reads demoMsgServer 1 3).2.2.2 demoConnC
      { time := 0, inbound := [], outbound := [] } (by decide) (by decide) (by decide)
  · exact (claim_C7_message_reads demoMsgServer 2 3).1.mpr (by decide)

/-- C8: during an `update` tick, the socket drain loop ends in exactly one of
two ways besides routing another datagram — a fatal I/O error (every earlier
datagram of the tick stays processed, the error is absorbed and the same
`update` call still runs the handshake-advance/promotion phase on the
drained state) or `WouldBlock` (a clean stop without error). -/
theorem claim_C8_drain_loop_errors {σ : Type} (ops : ProtocolOps σ) (s : Server σ)
    (now : Nat) (pre rest : List SocketInput) (hpre : ∀ x ∈ pre, x.isDgram = true) :
    Server.process_events ops s now (pre ++ SocketInput.ioFailure :: rest)
      = (procList ops (clockUpdate s now) pre, false) ∧
    Server.process_events ops s now (pre ++ SocketInput.wouldBlock :: rest)
      = (procList ops (clockUpdate s now) pre, true) ∧
    Server.update ops s now (pre ++ SocketInput.ioFailure :: rest)
      = Server.update_pending_connections ops (procList ops (clockUpdate s now) pre) := by
  have h1 := drainLoop_split_ioFailure ops pre rest (clockUpdate s now) hpre
  have h2 := drainLoop_split_wouldBlock ops pre rest (clockUpdate s now) hpre
  refine ⟨h1, h2, ?_⟩
  unfold Server.update Server.process_events
  rw [h1]

theorem claim_C8_drain_loop_errors_witness :
    Server.process_events demoOps demoS0 0
        [SocketInput.dgram [1] 10, SocketInput.ioFailure]
      = (procList demoOps (clockUpdate demoS0 0) [SocketInput.dgram [1] 10], false) ∧
    Server.process_events demoOps demoS0 0
        [SocketInput.dgram [1] 10, SocketInput.wouldBlock]
      = (procList demoOps (clockUpdate demoS0 0) [SocketInput.dgram [1] 10], true) ∧
    Server.update demoOps demoS0 0 [SocketInput.dgram [1] 10, SocketInput.ioFailure]
      = Server.update_pending_connections demoOps
          (procList demoOps (clockUpdate demoS0 0) [SocketInput.dgram [1] 10]) :=
  claim_C8_drain_loop_errors demoOps demoS0 0 [SocketInput.dgram [1] 10] [] (by decide)

/-- C9: in every reachable state — in particular immediately after any
promotion — every session's channel key set is exactly the configured
channel key set, with each configured channel id present exactly once, and
the configured map itself never changes; so no operation ever adds a channel
to or removes a channel from a live session. -/
theorem claim_C9_channel_sets {σ : Type} (ops : ProtocolOps σ) (config : ServerConfig)
    (ecfg : EndpointConfig) (ccfg : List (Nat × ChannelConfig)) (t0 : Nat) (s : Server σ)
    (hr : Reachable ops config ecfg ccfg t0 s) (hccfg : (keysOf ccfg).Nodup) :
    s.channels_config = ccfg ∧
    ∀ kc ∈ s.clients, keysOf kc.2.channels = keysOf ccfg ∧ (keysOf kc.2.channels).Nodup := by
  have hinv := inv_reachable hr hccfg
  refine ⟨hinv.ccfg_eq, fun kc hkc => ⟨hinv.chan_keys kc hkc, ?_⟩⟩
  rw [hinv.chan_keys kc hkc]
  exact hccfg

theorem claim_C9_channel_sets_witness :
    chanS2.channels_config = demoCcfg ∧
    keysOf demoPromotedConn.channels = keysOf demoCcfg ∧
    (keysOf demoPromotedConn.channels).Nodup := by
  have h := claim_C9_channel_sets demoOps demoConfig demoEcfg demoCcfg 0 chanS2
    reach_chanS2 (by decide)
  exact ⟨h.1, (h.2 (1, demoPromotedConn) (by decide)).1, (h.2 (1, demoPromotedConn) (by decide)).2⟩

/-- C10: the `current_time` field is assigned once, at construction, and
keeps that value in every reachable state no matter how many `update(now)`
calls happened; consequently every session created by the promotion phase
has all of its channels built with the construction-time timestamp, not with
any timestamp later passed to `update`. -/
theorem claim_C10_construction_time {σ : Type} (ops : ProtocolOps σ)
    (config : ServerConfig) (ecfg : EndpointConfig) (ccfg : List (Nat × ChannelConfig))
    (t0 : Nat) (s : Server σ) (hr : Reachable ops config ecfg ccfg t0 s)
    (hccfg : (keysOf ccfg).Nodup) :
    s.current_time = t0 ∧
    (∀ (cid : ClientId) (c : Connection),
      lookupA s.clients cid = none →
      lookupA (Server.update_pending_connections ops s).clients cid = some c →
      ∀ kch ∈ c.channels, kch.2.time = t0) := by
  have hinv := inv_reachable hr hccfg
  refine ⟨hinv.time_eq, ?_⟩
  intro cid c hnone hsome
  rw [upc_eq] at hsome
  rcases promoteFold_new_client ops _ _ cid c hsome with h1 | h1
  · have h1a : lookupA s.clients cid = some c := h1
    rw [hnone] at h1a
    exact absurd h1a (by simp)
  · intro kch hkch
    have h2 : kch.2.time = s.current_time := h1 kch hkch
    rw [h2, hinv.time_eq]

theorem claim_C10_construction_time_witness :
    chanS1.current_time = 0 ∧
    ((3, ({ time := 0, inbound := [], outbound := [] } : Channel))).2.time = 0 ∧
    ((4, ({ time := 0, inbound := [], outbound := [] } : Channel))).2.time = 0 := by
  have h := claim_C10_construction_time demoOps demoConfig demoEcfg demoCcfg 0 chanS1
    reach_chanS1 (by decide)
  refine ⟨h.1, ?_, ?_⟩
  · exact h.2 1 demoPromotedConn (by decide) (by decide)
      (3, { time := 0, inbound := [], outbound := [] }) (by decide)
  · exact h.2 1 demoPromotedConn (by decide) (by decide)
      (4, { time := 0, inbound := [], outbound := [] }) (by decide)

/-- C2, counterexample to the claim as stated: the run `demoS0 → demoS1 →
demoS2` promotes client 1 (one `ClientConnected 1` event, id 1 in the
session map, id 1 removed from the pending map), but one further public
operation — a first-contact datagram from a new address that the protocol
again assigns id 1 — makes id 1 reappear in the pending-handshake map, so
"never reappears afterward" is false on the code. -/
theorem claim_C2_counterexample :
    Reachable demoOps demoConfig demoEcfg [] 0 demoS2 ∧
    demoS2.events = [Event.clientConnected 1] ∧
    (lookupA demoS2.clients 1).isSome = true ∧
    lookupA demoS2.connecting 1 = none ∧
    Step demoOps demoS2 demoS3 ∧
    (lookupA demoS3.connecting 1).isSome = true :=
  ⟨reach_demoS2, by decide, by decide, by decide,
   Step.processPayload demoS2 [1] 20, by decide⟩

/-- C2 amended: when a pending handshake is authenticated and the session
map holds fewer than `max_clients` entries at the moment of promotion,
exactly one `ClientConnected` event carrying its client id is enqueued, the
id is removed from the pending-handshake map and appears in the session map
exactly once; and the id never reappears in the pending map over any later
sequence of operations in which no first-contact datagram is assigned a
client id already naming a live session (without that restriction the code
does let the id reappear — see the counterexample). -/
theorem claim_C2_amended {σ : Type} (ops : ProtocolOps σ) (config : ServerConfig)
    (ccfg : List (Nat × ChannelConfig)) (t0 : Nat) (s : Server σ) (cid : ClientId)
    (hc : HandleConnection σ)
    (hinv : Inv config ccfg t0 s) (hd : IdsDisjoint s)
    (hl : lookupA s.connecting cid = some hc)
    (hauth : ops.isAuthenticated hc.protocol = true)
    (hcap : s.clients.length < s.config.max_clients) :
    (promoteOne ops s cid).events = s.events ++ [Event.clientConnected cid] ∧
    lookupA (promoteOne ops s cid).connecting cid = none ∧
    (keysOf (promoteOne ops s cid).clients).count cid = 1 ∧
    (∀ t : Server σ, RunNC ops (promoteOne ops s cid) t →
      (lookupA t.clients cid).isSome = true ∧ lookupA t.connecting cid = none) := by
  have hid : hc.client_id = cid := key_of_lookup_connecting hinv hl
  have hclients_none : lookupA s.clients cid = none := by
    cases hx : lookupA s.clients cid with
    | none => rfl
    | some c =>
        have := hd cid (by rw [hx]; rfl)
        rw [this] at hl
        exact absurd hl (by simp)
  have hnotmem : cid ∉ keysOf s.clients := by
    rw [← lookupA_isSome_iff_mem_keysOf, hclients_none]
    simp
  have hpromote := promoteOne_promote ops s cid hc hl (by omega)
  have hsome0 : (lookupA (promoteOne ops s cid).clients cid).isSome = true := by
    rw [hpromote]
    show (lookupA (insertA s.clients hc.client_id (freshSession ops s hc)) cid).isSome = true
    rw [hid, lookupA_insertA_self]
    rfl
  refine ⟨?_, ?_, ?_, ?_⟩
  · rw [hpromote, hid]
  · rw [hpromote]
    show lookupA (removeA s.connecting cid) cid = none
    exact lookupA_removeA_self _ _
  · rw [hpromote]
    show (keysOf (insertA s.clients hc.client_id (freshSession ops s hc))).count cid = 1
    rw [hid, keysOf_insertA_of_not_mem _ _ _ hnotmem, List.count_append]
    rw [List.count_eq_zero_of_not_mem hnotmem]
    simp
  · intro t hrun
    have hinv2 := inv_promoteOne ops cid hinv
    have hd2 := disjoint_promoteOne ops cid hinv hd
    have hmem : cid ∈ keysOf t.clients :=
      runNC_clients_mem_mono hrun cid
        ((lookupA_isSome_iff_mem_keysOf _ _).mp hsome0)
    have hsomet : (lookupA t.clients cid).isSome = true :=
      (lookupA_isSome_iff_mem_keysOf _ _).mpr hmem
    exact ⟨hsomet, runNC_disjoint hrun hinv2 hd2 cid hsomet⟩

theorem claim_C2_amended_witness :
    (promoteOne demoOps demoS1 1).events = demoS1.events ++ [Event.clientConnected 1] ∧
    lookupA (promoteOne demoOps demoS1 1).connecting 1 = none ∧
    (keysOf (promoteOne demoOps demoS1 1).clients).count 1 = 1 ∧
    (lookupA (promoteOne demoOps demoS1 1).clients 1).isSome = true := by
  have h := claim_C2_amended demoOps demoConfig [] 0 demoS1 1 ⟨1, 10, 1⟩
    (inv_reachable reach_demoS1 (by decide)) disjoint_demoS1 (by decide) (by decide) (by decide)
  exact ⟨h.1, h.2.1, h.2.2.1, (h.2.2.2 _ Relation.ReflTransGen.refl).1⟩

/-- C4, counterexample to the claim as stated: in the reachable state
`demoS3`, client id 1 is simultaneously a key of the session map and of the
pending-handshake map — a first-contact datagram from a new address whose
protocol-assigned client id equals the live session's id does create a
pending entry under that id (`process_payload_from` performs no such
check). -/
theorem claim_C4_counterexample :
    Reachable demoOps demoConfig demoEcfg [] 0 demoS3 ∧
    (lookupA demoS3.clients 1).isSome = true ∧
    (lookupA demoS3.connecting 1).isSome = true :=
  ⟨reach_demoS3, by decide, by decide⟩

/-- C4 amended: in every state reachable by collision-free operations —
runs in which no first-contact datagram is assigned a client id that
currently names a live session — no client id is simultaneously a key of
the session map and of the pending-handshake map; the handshake-to-session
transition itself (promotion) removes the id from the pending map in the
same step that inserts the session. Without the collision-free restriction
the disjointness fails on the code (see the counterexample). -/
theorem claim_C4_amended {σ : Type} (ops : ProtocolOps σ) (config : ServerConfig)
    (ecfg : EndpointConfig) (ccfg : List (Nat × ChannelConfig)) (t0 : Nat)
    (hccfg : (keysOf ccfg).Nodup) (s : Server σ)
    (hrun : RunNC ops (Server.new config ecfg ccfg t0) s) :
    IdsDisjoint s := by
  apply runNC_disjoint hrun (inv_init config ecfg ccfg t0 hccfg)
  intro cid hsome
  have hnil : lookupA (Server.new (σ := σ) config ecfg ccfg t0).clients cid = none := rfl
  rw [hnil] at hsome
  simp at hsome

theorem claim_C4_amended_witness : lookupA demoS2.connecting 1 = none :=
  claim_C4_amended demoOps demoConfig demoEcfg [] 0 (by decide) demoS2
    (Relation.ReflTransGen.tail
      (Relation.ReflTransGen.tail Relation.ReflTransGen.refl
        (StepNC.processPayload demoS0 [1] 10 (fun prot _ _ _ _ => rfl)))
      (StepNC.update demoS1 5 [] trivial))
    1 (by decide)

end DragonRenet
